import Mathlib

/-!
Verification of the hex puzzle rules engine (client/src/game).

Embedding conventions:
* JS cell-id strings "q,r" are in bijection with axial coordinates, so
  `CellId` is modelled as the coordinate itself (`axialToId` is the
  identity of that bijection).  All id comparisons in the source are
  string equality, which coincides with coordinate equality.
* JS records (`BoardState`, daily hit maps) are modelled as insertion
  ordered association lists with unique keys; `lookup` reads the first
  matching key, assignment rewrites the first matching entry in place or
  appends a fresh key at the end, exactly like a JS record.
* JS numbers are modelled as `Int` where the source only performs
  integer arithmetic, and as `Rat` for the score multipliers and the
  seeded generator outputs (an exact model of the real-number reading of
  the source arithmetic).
* `Math.random`-driven choices (the golden-cube shuffle) enter as an
  explicit list parameter; theorems quantify over it.
-/

/-- Axial hex coordinate, source type `Axial` in hexTypes.ts. -/
structure Axial where
  q : Int
  r : Int
deriving DecidableEq, Repr

/-- Cell identity.  The source uses the string key `"q,r"`; that encoding
is a bijection with the coordinate, so we use the coordinate itself. -/
abbrev CellId := Axial

/-- `axialToId` from hexTypes.ts, transported along the string bijection. -/
def axialToId (c : Axial) : CellId := c

/-- A board cell: `{id, coord}`. -/
structure Cell where
  id : CellId
  coord : Axial
deriving DecidableEq, Repr

/-- `directions` from hexTypes.ts. -/
def directions : List Axial :=
  [⟨1, 0⟩, ⟨1, -1⟩, ⟨0, -1⟩, ⟨-1, 0⟩, ⟨-1, 1⟩, ⟨0, 1⟩]

/-- `addAxial` from hexTypes.ts. -/
def addAxial (a b : Axial) : Axial := ⟨a.q + b.q, a.r + b.r⟩

/-- Pattern type tag: `'line' | 'flower'`. -/
inductive PatternType where
  | line : PatternType
  | flower : PatternType
deriving DecidableEq, Repr

/-- A scoring pattern record from hexTypes.ts. -/
structure Pattern where
  id : String
  ptype : PatternType
  cellIds : List CellId
deriving DecidableEq, Repr

/-- `BoardDefinition` from hexTypes.ts. -/
structure BoardDefinition where
  cells : List Cell
  patterns : List Pattern
  scoringLineIds : List String
  flowerIds : List String
deriving DecidableEq, Repr

/-- `flowerCenters` from boardDefinition.ts. -/
def flowerCenters : List Axial :=
  [⟨0, 0⟩, ⟨-3, 1⟩, ⟨-2, 3⟩, ⟨-1, -2⟩, ⟨1, 2⟩, ⟨2, -3⟩, ⟨3, -1⟩]

/-- Insertion-ordered cell map used while building the board
(`cellMap` plus `addCell` in `buildBoard`). -/
def addCellIfNew (m : List (CellId × Axial)) (coord : Axial) :
    List (CellId × Axial) :=
  if m.any (fun e => decide (e.1 = axialToId coord)) then m
  else m ++ [(axialToId coord, coord)]

/-- The `cellMap` built by `buildBoard`: for each flower center add the
center and its six neighbors, keeping first-insertion order. -/
def buildCellMap : List (CellId × Axial) :=
  flowerCenters.foldl
    (fun m center =>
      directions.foldl (fun m2 dir => addCellIfNew m2 (addAxial center dir))
        (addCellIfNew m center))
    []

/-- Membership of an id in the built cell map (`cellMap.has` / `cellSet.has`). -/
def hasCellId (id : CellId) : Bool :=
  buildCellMap.any (fun e => decide (e.1 = id))

/-- The board's `cells` array (insertion order of the cell map). -/
def builtCells : List Cell :=
  buildCellMap.map (fun e => ⟨e.1, e.2⟩)

/-- One flower pattern candidate for center number `index`
(`[centerId, ...petalIds].filter(cellMap.has)`). -/
def flowerCellIds (center : Axial) : List CellId :=
  ((axialToId center) ::
    directions.map (fun dir => axialToId (addAxial center dir))).filter
    (fun id => hasCellId id)

/-- The flower patterns and flower ids emitted by `buildBoard` (a flower
is emitted only when all 7 of its cells exist on the board). -/
def builtFlowers : List Pattern × List String :=
  (List.range flowerCenters.length).foldl
    (fun acc index =>
      match flowerCenters[index]? with
      | none => acc
      | some center =>
        let cellIds := flowerCellIds center
        if cellIds.length = 7 then
          let id := "flower-" ++ toString index
          (acc.1 ++ [⟨id, PatternType.flower, cellIds⟩], acc.2 ++ [id])
        else acc)
    ([], [])

/-- `getNeighbor` in `buildBoard`: the neighboring id in direction `dir`
when it is on the board. -/
def getNeighbor (id : CellId) (dir : Axial) : Option CellId :=
  let nextId := axialToId (addAxial id dir)
  if hasCellId nextId then some nextId else none

/-- The forward walk collecting a line (`while` loop in `buildBoard`).
Fuel bounds the walk; the board is finite so 64 steps are never
exhausted. -/
def walkLine (fuel : Nat) (currentId : CellId) (dir : Axial)
    (acc : List CellId) : List CellId :=
  match fuel with
  | 0 => acc
  | Nat.succ fuel2 =>
    match getNeighbor currentId dir with
    | none => acc
    | some neighborId => walkLine fuel2 neighborId dir (acc ++ [neighborId])

/-- The first three directions (`primaryDirs`). -/
def primaryDirs : List Axial := directions.take 3

/-- State threaded through line construction: patterns so far, seen line
keys (the JS key `lineIds.join('|')` is in bijection with the id list),
and the scoring line ids. -/
structure LineBuildState where
  patterns : List Pattern
  seenLines : List (List CellId)
  scoringLineIds : List String
deriving Repr

/-- Process one (startId, dir) candidate of the line loop in `buildBoard`. -/
def addLineCandidate (st : LineBuildState) (startId : CellId) (dir : Axial) :
    LineBuildState :=
  match getNeighbor startId ⟨-dir.q, -dir.r⟩ with
  | some _ => st
  | none =>
    let lineIds := walkLine 64 startId dir [startId]
    if lineIds.length ≥ 2 then
      if st.seenLines.any (fun k => decide (k = lineIds)) then st
      else
        let id := "line-" ++ toString st.patterns.length
        let isScoring := lineIds.length = 7
        { patterns := st.patterns ++ [⟨id, PatternType.line, lineIds⟩]
          seenLines := st.seenLines ++ [lineIds]
          scoringLineIds :=
            if isScoring then st.scoringLineIds ++ [id]
            else st.scoringLineIds }
    else st

/-- `buildBoard()` from boardDefinition.ts. -/
def buildBoard : BoardDefinition :=
  let flowers := builtFlowers
  let afterLines :=
    buildCellMap.foldl
      (fun st e =>
        primaryDirs.foldl (fun st2 dir => addLineCandidate st2 e.1 dir) st)
      ⟨flowers.1, [], []⟩
  { cells := builtCells
    patterns := afterLines.patterns
    scoringLineIds := afterLines.scoringLineIds
    flowerIds := flowers.2 }

/-- `BOARD_DEFINITION` module constant. -/
def BOARD_DEFINITION : BoardDefinition := buildBoard

/-- Cell occupancy: `'empty' | 'filled'`. -/
inductive CellState where
  | empty : CellState
  | filled : CellState
deriving DecidableEq, Repr

/-- Association-list model of a JS record keyed by cell ids: lookup reads
the first matching key. -/
def alookup {β : Type} (m : List (CellId × β)) (k : CellId) : Option β :=
  match m with
  | [] => none
  | e :: rest => if e.1 = k then some e.2 else alookup rest k

/-- JS record assignment: rewrite the value at the first matching key in
place, or append a fresh key at the end. -/
def aset {β : Type} (m : List (CellId × β)) (k : CellId) (v : β) :
    List (CellId × β) :=
  match m with
  | [] => [(k, v)]
  | e :: rest => if e.1 = k then (k, v) :: rest else e :: aset rest k v

/-- `BoardState`: mapping from cell ids to occupancy. -/
abbrev BoardState := List (CellId × CellState)

/-- Daily hit map: mapping from cell ids to remaining hit counts. -/
abbrev HitsMap := List (CellId × Int)

/-- `PieceShape` from pieces.ts. -/
structure PieceShape where
  id : String
  cells : List Axial
  size : Nat
deriving DecidableEq, Repr

/-- `ActivePiece` from gameLogic.ts. -/
structure ActivePiece where
  id : String
  shape : PieceShape
deriving DecidableEq, Repr

/-- `GameMode`. -/
inductive GameMode where
  | endless : GameMode
  | daily : GameMode
deriving DecidableEq, Repr

/-- `GameState` from gameLogic.ts.  The `hand`/`handSlots` fields carry
dealt pieces; they are read by no operation verified here. -/
structure GameState where
  mode : GameMode
  board : BoardState
  score : Int
  streak : Nat
  hand : List ActivePiece
  handSlots : List (Option String)
  gameOver : Bool
  moves : Nat
  dailyHits : HitsMap
  dailyTotalHits : Int
  dailyRemainingHits : Int
  dailyCompleted : Bool
  dailySeed : Option Int
  dailyHandDealCount : Option Nat
  goldenCellId : Option CellId
deriving DecidableEq, Repr

/-- `PlacementResult` from gameLogic.ts.  The multiplier fields model the
JS floating point numbers as exact rationals. -/
structure PlacementResult where
  board : BoardState
  clearedCellIds : List CellId
  clearedPatterns : List Pattern
  placedCellIds : List CellId
  pointsGained : Int
  comboMultiplier : Rat
  streakMultiplier : Rat
  dailyHits : HitsMap
  dailyTotalHits : Int
  dailyRemainingHits : Int
  dailyCompleted : Bool
  goldenCellId : Option CellId
  goldenCleared : Bool
deriving DecidableEq, Repr

/-- `scoringPatternIds` (a set of scoring line ids and flower ids). -/
def scoringIds : List String :=
  BOARD_DEFINITION.scoringLineIds ++ BOARD_DEFINITION.flowerIds

/-- Membership test mirroring `scoringPatternIds.has`. -/
def isScoringId (id : String) : Bool :=
  scoringIds.any (fun s => decide (s = id))

/-- `FLOWER_PATTERNS`. -/
def FLOWER_PATTERNS : List Pattern :=
  BOARD_DEFINITION.patterns.filter (fun p => decide (p.ptype = PatternType.flower))

/-- `pattern.cellIds.every((id) => board[id] === 'filled')`. -/
def patternFilled (board : BoardState) (p : Pattern) : Bool :=
  p.cellIds.all (fun id => decide (alookup board id = some CellState.filled))

/-- Add a pattern's cells to the cleared-cell set, keeping JS `Set`
first-insertion order. -/
def addClearCells (acc : List CellId) (ids : List CellId) : List CellId :=
  ids.foldl
    (fun a id => if a.any (fun x => decide (x = id)) then a else a ++ [id]) acc

/-- Result of `findClears`. -/
structure ClearScan where
  clearedPatterns : List Pattern
  clearedCellIds : List CellId
deriving DecidableEq, Repr

/-- `findClears` from gameLogic.ts. -/
def findClears (board : BoardState) : ClearScan :=
  BOARD_DEFINITION.patterns.foldl
    (fun sc p =>
      if isScoringId p.id && patternFilled board p then
        ⟨sc.clearedPatterns ++ [p], addClearCells sc.clearedCellIds p.cellIds⟩
      else sc)
    ⟨[], []⟩

/-- `createEmptyBoard`. -/
def createEmptyBoard : BoardState :=
  BOARD_DEFINITION.cells.map (fun c => (c.id, CellState.empty))

/-- `canPlacePiece` target loop over the shape's relative offsets:
fails on the first target id that is off the record or not empty. -/
def placeLoop (board : BoardState) (origin : Axial) :
    List Axial → Option (List CellId)
  | [] => some []
  | rel :: rest =>
    let targetId : CellId := ⟨origin.q + rel.q, origin.r + rel.r⟩
    match alookup board targetId with
    | none => none
    | some st =>
      if st = CellState.empty then
        match placeLoop board origin rest with
        | none => none
        | some ids => some (targetId :: ids)
      else none

/-- `canPlacePiece(board, piece, originCellId)`; `some ids` models the
`{ targetCellIds }` success object. -/
def canPlacePiece (board : BoardState) (piece : PieceShape)
    (originCellId : CellId) : Option (List CellId) :=
  match BOARD_DEFINITION.cells.find? (fun c => decide (c.id = originCellId)) with
  | none => none
  | some originCell => placeLoop board originCell.coord piece.cells

/-- Mark a list of target cells filled on the board. -/
def fillCells (board : BoardState) (ids : List CellId) : BoardState :=
  ids.foldl (fun b id => aset b id CellState.filled) board

/-- Set all cleared cells to empty. -/
def clearCells (board : BoardState) (ids : List CellId) : BoardState :=
  ids.foldl (fun b id => aset b id CellState.empty) board

/-- Re-fill daily cells whose hit count is still positive (also the
initial numbered-cell fill in `createDailyGameState`). -/
def refillDaily (board : BoardState) (hits : HitsMap) : BoardState :=
  hits.foldl
    (fun b e => if e.2 > 0 then aset b e.1 CellState.filled else b) board

/-- `perCellHitCounts` accumulation: bump the count for one cell. -/
def bumpCount (m : List (CellId × Nat)) (c : CellId) : List (CellId × Nat) :=
  match alookup m c with
  | some n => aset m c (n + 1)
  | none => aset m c 1

/-- Count, for every numbered cell with remaining hits, the number of
distinct clearing patterns it participates in this move. -/
def perCellHitCounts (clearedPatterns : List Pattern) (dailyHits : HitsMap) :
    List (CellId × Nat) :=
  clearedPatterns.foldl
    (fun m p =>
      p.cellIds.foldl
        (fun m2 cellId =>
          match alookup dailyHits cellId with
          | some h => if h > 0 then bumpCount m2 cellId else m2
          | none => m2)
        m)
    []

/-- The decrement loop over `perCellHitCounts` entries, returning the
updated hit map and remaining-hit total. -/
def applyHitDecrements (counts : List (CellId × Nat)) (hits : HitsMap)
    (remaining : Int) : HitsMap × Int :=
  counts.foldl
    (fun st e =>
      let before := (alookup st.1 e.1).getD 0
      if before ≤ 0 then st
      else
        let after := max 0 (before - (e.2 : Int))
        (aset st.1 e.1 after, st.2 - (before - after)))
    (hits, remaining)

/-- Daily-mode hit bookkeeping of `applyPlacement` (step 4): returns the
updated hit map, remaining total, and completion flag. -/
def dailyResolve (clearedPatterns : List Pattern) (hits : HitsMap)
    (total remaining : Int) (completed : Bool) : HitsMap × Int × Bool :=
  if clearedPatterns.length > 0 ∧ hits.length > 0 then
    let counts := perCellHitCounts clearedPatterns hits
    if counts.length > 0 then
      let hr := applyHitDecrements counts hits remaining
      if hr.2 ≤ 0 ∧ total > 0 then (hr.1, 0, true)
      else (hr.1, hr.2, completed)
    else (hits, remaining, completed)
  else (hits, remaining, completed)

/-- Skip test of the golden-cube loops: the cell lies inside a forbidden
flower.  The empty list models an absent `forbiddenFlowers` set. -/
def inForbiddenFlower (forbidden : List String) (id : CellId) : Bool :=
  FLOWER_PATTERNS.any
    (fun p =>
      forbidden.any (fun f => decide (f = p.id)) &&
        p.cellIds.any (fun c => decide (c = id)))

/-- Main candidate loop of `spawnGoldenCell`: threading the (mutated)
board, return the accepted cell or `none` if the list is exhausted. -/
def spawnLoop (forbidden : List String) :
    List Cell → BoardState → BoardState × Option CellId
  | [], board => (board, none)
  | cell :: rest, board =>
    if inForbiddenFlower forbidden cell.id then
      spawnLoop forbidden rest board
    else if alookup board cell.id = some CellState.filled then
      (board, some cell.id)
    else
      let b2 := aset board cell.id CellState.filled
      if (findClears b2).clearedPatterns.length = 0 then (b2, some cell.id)
      else spawnLoop forbidden rest (aset b2 cell.id CellState.empty)

/-- Fallback loop of `spawnGoldenCell`: any filled, non-forbidden cell. -/
def spawnFallback (forbidden : List String) (board : BoardState) :
    List Cell → Option CellId
  | [] => none
  | cell :: rest =>
    if inForbiddenFlower forbidden cell.id then
      spawnFallback forbidden board rest
    else if alookup board cell.id = some CellState.filled then some cell.id
    else spawnFallback forbidden board rest

/-- `spawnGoldenCell(board, forbiddenFlowers)`.  The `Math.random`
shuffle of the board cells enters as the explicit `shuffled` list; the
possibly mutated board is returned alongside the chosen cell. -/
def spawnGoldenCell (board : BoardState) (forbidden : List String)
    (shuffled : List Cell) : BoardState × Option CellId :=
  match spawnLoop forbidden shuffled board with
  | (b, some id) => (b, some id)
  | (b, none) => (b, spawnFallback forbidden b shuffled)

/-- `Object.values(board).every((s) => s === 'empty')`. -/
def boardAllEmpty (board : BoardState) : Bool :=
  board.all (fun e => decide (e.2 = CellState.empty))

/-- JS `Math.round`: round half toward positive infinity. -/
def jsRound (x : Rat) : Int := ⌊x + 1 / 2⌋

/-- Intermediate result of `applyPlacement` steps 1-6: board after the
piece is placed, clears are emptied and surviving daily cells re-filled,
but before the golden respawn (step 7) and scoring (step 8). -/
structure CoreResult where
  board : BoardState
  clearedPatterns : List Pattern
  clearedCellIds : List CellId
  placedCellIds : List CellId
  dailyHits : HitsMap
  dailyRemainingHits : Int
  dailyCompleted : Bool
  goldenCleared : Bool
deriving DecidableEq, Repr

/-- Steps 1-6 of `applyPlacement` (validation, fill, clear scan, daily
bookkeeping, clear resolution, refill) plus the golden-cleared test. -/
def applyPlacementCore (current : GameState) (piece : ActivePiece)
    (originCellId : CellId) : Option CoreResult :=
  match canPlacePiece current.board piece.shape originCellId with
  | none => none
  | some targetCellIds =>
    let board1 := fillCells current.board targetCellIds
    let scan := findClears board1
    let daily := dailyResolve scan.clearedPatterns current.dailyHits
      current.dailyTotalHits current.dailyRemainingHits current.dailyCompleted
    if scan.clearedPatterns.length = 0 then
      some ⟨board1, [], [], targetCellIds, daily.1, daily.2.1, daily.2.2, false⟩
    else
      let board2 := clearCells board1 scan.clearedCellIds
      let board3 := refillDaily board2 daily.1
      let goldenCleared : Bool :=
        match current.goldenCellId with
        | some g =>
          decide (current.mode = GameMode.endless) &&
            scan.clearedCellIds.any (fun c => decide (c = g))
        | none => false
      some ⟨board3, scan.clearedPatterns, scan.clearedCellIds, targetCellIds,
        daily.1, daily.2.1, daily.2.2, goldenCleared⟩

/-- Forbidden flowers for the golden respawn: every flower containing the
previous golden cell. -/
def forbiddenForRespawn (previousGolden : Option CellId) : List String :=
  match previousGolden with
  | none => []
  | some prev =>
    (FLOWER_PATTERNS.filter
      (fun p => p.cellIds.any (fun c => decide (c = prev)))).map
      (fun p => p.id)

/-- `applyPlacement(current, piece, originCellId)`.  `shuffledCells` is
the random order in which a golden respawn would probe the board. -/
def applyPlacement (shuffledCells : List Cell) (current : GameState)
    (piece : ActivePiece) (originCellId : CellId) : Option PlacementResult :=
  match applyPlacementCore current piece originCellId with
  | none => none
  | some core =>
    if core.clearedPatterns.length = 0 then
      some
        { board := core.board
          clearedCellIds := []
          clearedPatterns := []
          placedCellIds := core.placedCellIds
          pointsGained := 0
          comboMultiplier := 1
          streakMultiplier := 1
          dailyHits := core.dailyHits
          dailyTotalHits := current.dailyTotalHits
          dailyRemainingHits := core.dailyRemainingHits
          dailyCompleted := core.dailyCompleted
          goldenCellId := current.goldenCellId
          goldenCleared := false }
    else
      let numClears : Int := core.clearedPatterns.length
      let comboMultiplier : Rat := 1 + (1 / 2) * ((numClears : Rat) - 1)
      let streakMultiplier : Rat := 1 + (1 / 10) * (current.streak : Rat)
      let wasBoardEmptyBefore := boardAllEmpty current.board
      let isBoardEmptyAfter := boardAllEmpty core.board
      let boardClearedBonus : Int :=
        if !wasBoardEmptyBefore && isBoardEmptyAfter then 25 else 0
      let goldenBonus : Int :=
        if decide (current.mode = GameMode.endless) && core.goldenCleared
        then 10 else 0
      let basePoints : Int := 10 * numClears + boardClearedBonus + goldenBonus
      let pointsGained :=
        jsRound ((basePoints : Rat) * comboMultiplier * streakMultiplier)
      let spawned :=
        if decide (current.mode = GameMode.endless) && core.goldenCleared then
          spawnGoldenCell core.board
            (forbiddenForRespawn current.goldenCellId) shuffledCells
        else (core.board, current.goldenCellId)
      some
        { board := spawned.1
          clearedCellIds := core.clearedCellIds
          clearedPatterns := core.clearedPatterns
          placedCellIds := core.placedCellIds
          pointsGained := pointsGained
          comboMultiplier := comboMultiplier
          streakMultiplier := streakMultiplier
          dailyHits := core.dailyHits
          dailyTotalHits := current.dailyTotalHits
          dailyRemainingHits := core.dailyRemainingHits
          dailyCompleted := core.dailyCompleted
          goldenCellId := spawned.2
          goldenCleared := core.goldenCleared }

/-- One LCG step of `makeSeededRandom`:
`state = (state * 1664525 + 1013904223) >>> 0`. -/
def lcgNext (s : Nat) : Nat := (s * 1664525 + 1013904223) % 4294967296

/-- `seed >>> 0`: JS ToUint32 of the integer seed. -/
def seedToState (seed : Int) : Nat := (seed % 4294967296).toNat

/-- The internal state after `n` calls of the generator made from `seed`. -/
def lcgState (seed : Int) : Nat → Nat
  | 0 => seedToState seed
  | Nat.succ n => lcgNext (lcgState seed n)

/-- One call of the closure returned by `makeSeededRandom`: advance the
state and return `state / 0xffffffff` (note: the divisor in the source is
`0xffffffff = 2^32 - 1`). -/
def rngStep (s : Nat) : Rat × Nat :=
  let s2 := lcgNext s
  ((s2 : Rat) / 4294967295, s2)

/-- The value returned by the `n`-th call (0-indexed) of the generator
made from `seed`. -/
def seededOut (seed : Int) (n : Nat) : Rat :=
  ((lcgState seed (n + 1) : Rat)) / 4294967295

/-- `cellCoord` lookup built in `createDailyGameState`. -/
def cellCoordOf (id : CellId) : Option Axial :=
  match BOARD_DEFINITION.cells.find? (fun c => decide (c.id = id)) with
  | none => none
  | some c => some c.coord

/-- Per-flower coordinate sums used for the centroid computation
(cells missing from the coordinate map are skipped). -/
def flowerCoordSum (p : Pattern) : Int × Int × Nat :=
  p.cellIds.foldl
    (fun acc id =>
      match cellCoordOf id with
      | none => acc
      | some c => (acc.1 + c.q, acc.2.1 + c.r, acc.2.2 + 1))
    (0, 0, 0)

/-- Squared distance of a flower's average coordinate from the origin,
`none` when the flower has no coordinates. -/
def flowerDistSq (p : Pattern) : Option Rat :=
  let s := flowerCoordSum p
  if s.2.2 = 0 then none
  else
    let avgQ : Rat := (s.1 : Rat) / (s.2.2 : Rat)
    let avgR : Rat := (s.2.1 : Rat) / (s.2.2 : Rat)
    some (avgQ * avgQ + avgR * avgR)

/-- One step of the centroid comparison in `createDailyGameState`: keep
the candidate with the strictly smaller squared distance. -/
def centerFold (best : Option (Pattern × Rat)) (p : Pattern) :
    Option (Pattern × Rat) :=
  match flowerDistSq p with
  | none => best
  | some d =>
    match best with
    | none => some (p, d)
    | some b => if d < b.2 then some (p, d) else best

/-- The central flower: the flower pattern whose average axial coordinate
is strictly nearest the origin, earlier patterns winning ties. -/
def centerFlowerOf (flowers : List Pattern) : Option Pattern :=
  (flowers.foldl centerFold none).map Prod.fst

/-- State threaded through the numbered-cell loop of
`createDailyGameState`: hit map, total hits, RNG state. -/
structure DailyGenState where
  hits : HitsMap
  totalHits : Int
  rng : Nat
deriving DecidableEq, Repr

/-- One iteration of the numbered-cell loop: a non-central rosette draws
one of its cells and a hit value in the seeded stream.  (If the draw for
the index is exactly 1 the source reads `available[7]`, which is
`undefined`, and records the value under the record key `"undefined"`;
that off-board key is not representable here and the assignment is
skipped.  All theorems below exclude that case by hypothesis.) -/
def dailyGenStep (centerFlower : Option Pattern) (st : DailyGenState)
    (p : Pattern) : DailyGenState :=
  if centerFlower = some p then st
  else if p.cellIds.length > 0 then
    let o1 := rngStep st.rng
    let idx := (⌊o1.1 * (p.cellIds.length : Rat)⌋).toNat
    let o2 := rngStep o1.2
    let value : Int := 2 + ⌊o2.1 * 3⌋
    match p.cellIds[idx]? with
    | some cellId =>
      let previous := (alookup st.hits cellId).getD 0
      ⟨aset st.hits cellId (previous + value), st.totalHits + value, o2.2⟩
    | none => ⟨st.hits, st.totalHits + value, o2.2⟩
  else st

/-- `createDailyGameState`, parametrized by the date seed (the source
derives it from the local calendar date).  The dealt hand consumes the
seeded stream after every field below is already fixed and affects none
of them; it is not modelled (`hand := []`). -/
def createDailyGameState (seed : Int) : GameState :=
  let flowers := FLOWER_PATTERNS
  let centerFlower := centerFlowerOf flowers
  let final := flowers.foldl (dailyGenStep centerFlower)
    ⟨[], 0, seedToState seed⟩
  let board := refillDaily createEmptyBoard final.hits
  { mode := GameMode.daily
    board := board
    score := 0
    streak := 0
    hand := []
    handSlots := []
    gameOver := false
    moves := 0
    dailyHits := final.hits
    dailyTotalHits := final.totalHits
    dailyRemainingHits := final.totalHits
    dailyCompleted := false
    dailySeed := some seed
    dailyHandDealCount := some 0
    goldenCellId := none }

/-- Sum of the remaining hit counts recorded in a hit map. -/
def hitsSum (m : HitsMap) : Int := (m.map Prod.snd).sum

/-! ### Piece catalog (pieces.ts) -/

/-- One sixth-turn of the `rotate` helper in `transformVariants`. -/
def rotStep (c : Axial) : Axial := ⟨-c.r, c.q + c.r⟩

/-- `rotate(c, times)`. -/
def rotAx : Nat → Axial → Axial
  | 0, c => c
  | Nat.succ n, c => rotAx n (rotStep c)

/-- `reflect`. -/
def reflectAx (c : Axial) : Axial := ⟨-c.q, c.r + c.q⟩

/-- `Math.min` over the q components (shapes are never empty). -/
def minQs : List Axial → Int
  | [] => 0
  | c :: rest => rest.foldl (fun m x => min m x.q) c.q

/-- `Math.min` over the r components. -/
def minRs : List Axial → Int
  | [] => 0
  | c :: rest => rest.foldl (fun m x => min m x.r) c.r

/-- The sort order of `normalize`: by q, then by r. -/
def axLeP (a b : Axial) : Prop := a.q < b.q ∨ (a.q = b.q ∧ a.r ≤ b.r)

instance : DecidableRel axLeP := fun a b => by
  unfold axLeP
  infer_instance

instance : IsTotal Axial axLeP := ⟨by
  intro a b
  unfold axLeP
  omega⟩

instance : IsTrans Axial axLeP := ⟨by
  intro a b c
  unfold axLeP
  omega⟩

instance : IsAntisymm Axial axLeP := ⟨by
  intro a b h1 h2
  have : a.q = b.q ∧ a.r = b.r := by
    unfold axLeP at h1 h2
    omega
  cases a
  cases b
  simp_all⟩

/-- `normalize`: translate so the minimum q and r are 0, then sort
lexicographically.  (JS `Array.sort` is a stable sort under the same
total comparator, so insertion sort computes the identical list.) -/
def normalizeShape (shape : List Axial) : List Axial :=
  let mq := minQs shape
  let mr := minRs shape
  List.insertionSort axLeP (shape.map (fun c => ⟨c.q - mq, c.r - mr⟩))

/-- `transformVariants`: the 12 normalized symmetry images (6 rotations,
each plain and reflected). -/
def transformVariants (cells : List Axial) : List (List Axial) :=
  (List.range 6).foldl
    (fun res rot =>
      let rotated := cells.map (rotAx rot)
      res ++ [normalizeShape rotated, normalizeShape (rotated.map reflectAx)])
    []

/-- The string encoding of one variant: `"q,r;q,r;..."`. -/
def variantString (v : List Axial) : String :=
  String.intercalate ";" (v.map (fun c => toString c.q ++ "," ++ toString c.r))

/-- `canonicalKey`: the lexicographically smallest variant string
(`variantStrings.sort()[0]`). -/
def canonicalKey (cells : List Axial) : String :=
  match (transformVariants cells).map variantString with
  | [] => ""
  | s :: rest => rest.foldl (fun m x => if x < m then x else m) s

/-- The insertion-ordered `Map` of `generateShapes`. -/
abbrev ShapeMap := List (String × List Axial)

/-- `shapes.has(key)`. -/
def smHas (m : ShapeMap) (k : String) : Bool :=
  m.any (fun e => decide (e.1 = k))

/-- `expand(current)`: all one-cell extensions of a shape. -/
def expandShape (current : List Axial) : List (List Axial) :=
  current.foldl
    (fun res cell =>
      directions.foldl
        (fun res2 dir =>
          let neighbor := addAxial cell dir
          if current.any (fun c => decide (c = neighbor)) then res2
          else res2 ++ [current ++ [neighbor]])
        res)
    []

/-- One size step of the generation loop: expand every frontier shape,
keeping one representative per canonical key. -/
def genSize (st : ShapeMap × List (List Axial)) : ShapeMap × List (List Axial) :=
  st.2.foldl
    (fun acc shape =>
      (expandShape shape).foldl
        (fun acc2 grown =>
          let key := canonicalKey grown
          if smHas acc2.1 key then acc2
          else (acc2.1 ++ [(key, grown)], acc2.2 ++ [grown]))
        acc)
    (st.1, [])

/-- The shape map after `generateShapes`'s growth loop (sizes 2 to 4). -/
def generatedShapeMap : ShapeMap :=
  let start : List Axial := [⟨0, 0⟩]
  let m0 : ShapeMap := [(canonicalKey start, start)]
  (genSize (genSize (genSize (m0, [start])))).1

/-- `ALL_PIECE_SHAPES`: the catalog values, sizes 1 to 4, numbered in
insertion order and stably sorted by ascending size. -/
def ALL_PIECE_SHAPES : List PieceShape :=
  let kept := (generatedShapeMap.map Prod.snd).filter
    (fun cells => decide (1 ≤ cells.length ∧ cells.length ≤ 4))
  let numbered := (kept.foldl
    (fun (acc : List PieceShape × Nat) cells =>
      (acc.1 ++
        [⟨"shape-" ++ toString cells.length ++ "-" ++ toString acc.2,
          cells, cells.length⟩],
        acc.2 + 1))
    ([], 0)).1
  List.insertionSort (fun a b => a.size ≤ b.size) numbered

/-! ### Spec-side notions for the catalog claims -/

/-- Hex adjacency of two cells (they differ by one of the six unit
directions). -/
def hexAdj (a b : Axial) : Prop := (⟨a.q - b.q, a.r - b.r⟩ : Axial) ∈ directions

instance : DecidableRel hexAdj := fun a b => by
  unfold hexAdj
  infer_instance

/-- A build order of a polyhex: starting from a single hex, each further
hex is adjacent to one already present (the spec's BFS-growth notion of a
connected polyhex). -/
inductive GrowsTo : List Axial → Prop where
  | single (c : Axial) : GrowsTo [c]
  | grow (c : Axial) (s : List Axial) (hs : GrowsTo s)
      (hadj : ∃ d ∈ s, hexAdj c d) : GrowsTo (c :: s)

/-- A polyhex: some ordering of the cells is a build order. -/
def IsPolyhex (s : List Axial) : Prop := ∃ t, t.Perm s ∧ GrowsTo t

/-- Does `c` touch some member of `s`? -/
def hasAdjIn (c : Axial) (s : List Axial) : Bool :=
  s.any (fun d => decide (hexAdj c d))

/-- Fuelled connectivity test: some cell adjacent to the rest can be
removed leaving a connected shape. -/
def connBF : Nat → List Axial → Bool
  | _, [] => false
  | _, [_] => true
  | 0, _ :: _ :: _ => false
  | Nat.succ n, s =>
    s.any (fun c => hasAdjIn c (s.erase c) && connBF n (s.erase c))

/-- Executable connectivity test for a shape. -/
def connB (s : List Axial) : Bool := connBF s.length s

/-- The 4x4 coordinate box holding every normalized shape of at most 4
cells, listed in ascending `axLeP` order. -/
def boxCells : List Axial :=
  ((List.range 4).foldl
    (fun acc q =>
      (List.range 4).foldl (fun a2 r => a2 ++ [(⟨q, r⟩ : Axial)]) acc)
    [])

/-- All candidate normalized shapes of sizes 1 to 4 inside the box. -/
def boxShapes : List (List Axial) :=
  boxCells.sublistsLen 1 ++ boxCells.sublistsLen 2 ++
    boxCells.sublistsLen 3 ++ boxCells.sublistsLen 4

/-- The catalog's canonical keys. -/
def catalogKeys : List String := ALL_PIECE_SHAPES.map (fun p => canonicalKey p.cells)

/-- Box-level completeness check: every connected candidate shape in the
box carries the canonical key of some catalog entry. -/
def coveredByCatalog (ks : List String) (s : List Axial) : Bool :=
  !connB s || ks.any (fun k => decide (k = canonicalKey s))

/-! ### Reference-store model of `applyPlacement` (object identity)

JS objects are mutable and passed by reference; to state that
`applyPlacement` never writes to the caller's `board` and `dailyHits`
objects, those two records live in explicit stores indexed by references
and every source assignment is a store write at the reference the source
statement targets. -/

/-- Store of board objects. -/
abbrev BStore := List (Nat × BoardState)

/-- Store of hit-map objects. -/
abbrev HStore := List (Nat × HitsMap)

/-- Read an object from a store. -/
def storeGet {α : Type} : List (Nat × α) → Nat → Option α
  | [], _ => none
  | e :: rest, r => if e.1 = r then some e.2 else storeGet rest r

/-- Overwrite an object in a store. -/
def storeSet {α : Type} : List (Nat × α) → Nat → α → List (Nat × α)
  | [], r, v => [(r, v)]
  | e :: rest, r, v =>
    if e.1 = r then (r, v) :: rest else e :: storeSet rest r v

/-- A reference unused by a store. -/
def freshRef {α : Type} (s : List (Nat × α)) : Nat :=
  s.foldl (fun m e => max m e.1) 0 + 1

/-- `GameState` with its two mutable records held by reference. -/
structure GameStateRef where
  mode : GameMode
  boardRef : Nat
  streak : Nat
  dailyHitsRef : Nat
  dailyTotalHits : Int
  dailyRemainingHits : Int
  dailyCompleted : Bool
  goldenCellId : Option CellId
deriving DecidableEq, Repr

/-- `spawnGoldenCell`'s candidate loop writing its board argument through
the store at `ref`. -/
def spawnLoopS (forbidden : List String) :
    List Cell → BStore → Nat → BStore × Option CellId
  | [], bs, _ => (bs, none)
  | cell :: rest, bs, ref =>
    let board := (storeGet bs ref).getD []
    if inForbiddenFlower forbidden cell.id then
      spawnLoopS forbidden rest bs ref
    else if alookup board cell.id = some CellState.filled then
      (bs, some cell.id)
    else
      let b2 := aset board cell.id CellState.filled
      if (findClears b2).clearedPatterns.length = 0 then
        (storeSet bs ref b2, some cell.id)
      else
        spawnLoopS forbidden rest
          (storeSet bs ref (aset b2 cell.id CellState.empty)) ref

/-- `spawnGoldenCell` through the store. -/
def spawnGoldenCellS (bs : BStore) (ref : Nat) (forbidden : List String)
    (shuffled : List Cell) : BStore × Option CellId :=
  match spawnLoopS forbidden shuffled bs ref with
  | (bs2, some id) => (bs2, some id)
  | (bs2, none) =>
    (bs2, spawnFallback forbidden ((storeGet bs2 ref).getD []) shuffled)

/-- `applyPlacement` through the stores: reads the input state's records
at their references, allocates fresh objects for the copies the source
creates, and returns the final stores together with the references of the
result's `board` and `dailyHits` objects (`none` for a rejected move). -/
def applyPlacementS (bs : BStore) (hs : HStore) (current : GameStateRef)
    (piece : ActivePiece) (originCellId : CellId) (shuffledCells : List Cell) :
    BStore × HStore × Option (Nat × Nat) :=
  let board0 := (storeGet bs current.boardRef).getD []
  let hits0 := (storeGet hs current.dailyHitsRef).getD []
  match canPlacePiece board0 piece.shape originCellId with
  | none => (bs, hs, none)
  | some targetCellIds =>
    let bref := freshRef bs
    let bs1 := bs ++ [(bref, board0)]
    let bs2 := storeSet bs1 bref (fillCells board0 targetCellIds)
    let scan := findClears (fillCells board0 targetCellIds)
    let daily := dailyResolve scan.clearedPatterns hits0
      current.dailyTotalHits current.dailyRemainingHits current.dailyCompleted
    let dailyCopied :=
      decide (scan.clearedPatterns.length > 0 ∧ hits0.length > 0) &&
        decide ((perCellHitCounts scan.clearedPatterns hits0).length > 0)
    let href := if dailyCopied then freshRef hs else current.dailyHitsRef
    let hs1 := if dailyCopied then hs ++ [(freshRef hs, daily.1)] else hs
    if scan.clearedPatterns.length = 0 then (bs2, hs1, some (bref, href))
    else
      let board3 :=
        refillDaily (clearCells (fillCells board0 targetCellIds)
          scan.clearedCellIds) daily.1
      let bs3 := storeSet bs2 bref board3
      let goldenCleared : Bool :=
        match current.goldenCellId with
        | some g =>
          decide (current.mode = GameMode.endless) &&
            scan.clearedCellIds.any (fun c => decide (c = g))
        | none => false
      if decide (current.mode = GameMode.endless) && goldenCleared then
        let sp := spawnGoldenCellS bs3 bref
          (forbiddenForRespawn current.goldenCellId) shuffledCells
        (sp.1, hs1, some (bref, href))
      else (bs3, hs1, some (bref, href))

/-! ### Concrete fixtures used by counterexamples and witnesses -/

/-- A `CoreResult` with a harmless default for `Option.getD`. -/
def coreOrDefault (o : Option CoreResult) : CoreResult :=
  o.getD ⟨[], [], [], [], [], 0, false, false⟩

/-- A one-cell piece instance. -/
def singleCellPiece : ActivePiece := ⟨"piece-1", ⟨"shape-1-0", [⟨0, 0⟩], 1⟩⟩

/-- Endless-mode state: the central flower lacks only its center, the
golden cube sits on one of its petals, nothing else is filled. -/
def goldenClearState : GameState :=
  { mode := GameMode.endless
    board := fillCells createEmptyBoard
      [⟨1, 0⟩, ⟨1, -1⟩, ⟨0, -1⟩, ⟨-1, 0⟩, ⟨-1, 1⟩, ⟨0, 1⟩]
    score := 0
    streak := 0
    hand := []
    handSlots := []
    gameOver := false
    moves := 0
    dailyHits := []
    dailyTotalHits := 0
    dailyRemainingHits := 0
    dailyCompleted := false
    dailySeed := none
    dailyHandDealCount := none
    goldenCellId := some ⟨1, 0⟩ }

/-- Core result of placing the single cell at the origin on
`goldenClearState`. -/
def goldenClearCore : CoreResult :=
  coreOrDefault (applyPlacementCore goldenClearState singleCellPiece ⟨0, 0⟩)

/-- Daily-mode state at streak 2: three parallel scoring lines (rows 1,
2 and -2) each lack exactly one cell in column 0, and one extra cell
keeps the board non-empty after the triple clear. -/
def tripleClearState : GameState :=
  { mode := GameMode.daily
    board := fillCells createEmptyBoard
      [⟨-4, 1⟩, ⟨-3, 1⟩, ⟨-2, 1⟩, ⟨-1, 1⟩, ⟨1, 1⟩, ⟨2, 1⟩,
       ⟨-4, 2⟩, ⟨-3, 2⟩, ⟨-2, 2⟩, ⟨-1, 2⟩, ⟨1, 2⟩, ⟨2, 2⟩,
       ⟨-2, -2⟩, ⟨-1, -2⟩, ⟨1, -2⟩, ⟨2, -2⟩, ⟨3, -2⟩, ⟨4, -2⟩,
       ⟨3, 0⟩]
    score := 0
    streak := 2
    hand := []
    handSlots := []
    gameOver := false
    moves := 0
    dailyHits := []
    dailyTotalHits := 0
    dailyRemainingHits := 0
    dailyCompleted := false
    dailySeed := none
    dailyHandDealCount := none
    goldenCellId := none }

/-- The (free-form) piece whose three cells close the three lines of
`tripleClearState` from origin cell `(0, 1)`. -/
def tripleClearPiece : ActivePiece :=
  ⟨"piece-3", ⟨"witness-shape", [⟨0, 0⟩, ⟨0, 1⟩, ⟨0, -3⟩], 3⟩⟩

/-- Core result of the triple-line placement. -/
def tripleClearCore : CoreResult :=
  coreOrDefault (applyPlacementCore tripleClearState tripleClearPiece ⟨0, 1⟩)

/-- Daily-mode state: one numbered cell with 3 hits on a petal of the
central flower, which lacks only its center. -/
def dailyHitState : GameState :=
  { mode := GameMode.daily
    board := fillCells createEmptyBoard
      [⟨1, 0⟩, ⟨1, -1⟩, ⟨0, -1⟩, ⟨-1, 0⟩, ⟨-1, 1⟩, ⟨0, 1⟩]
    score := 0
    streak := 0
    hand := []
    handSlots := []
    gameOver := false
    moves := 0
    dailyHits := [(⟨1, 0⟩, 3)]
    dailyTotalHits := 3
    dailyRemainingHits := 3
    dailyCompleted := false
    dailySeed := some 0
    dailyHandDealCount := some 0
    goldenCellId := none }

/-- Core result of completing the central flower on `dailyHitState`. -/
def dailyHitCore : CoreResult :=
  coreOrDefault (applyPlacementCore dailyHitState singleCellPiece ⟨0, 0⟩)

/-- Daily-mode state whose hit map contains a negative entry: the sum of
the map equals `dailyRemainingHits` (both are -2), yet one clear will
trip the completion clamp and break the sum. -/
def negativeHitState : GameState :=
  { mode := GameMode.daily
    board := fillCells createEmptyBoard
      [⟨1, 0⟩, ⟨1, -1⟩, ⟨0, -1⟩, ⟨-1, 0⟩, ⟨-1, 1⟩, ⟨0, 1⟩]
    score := 0
    streak := 0
    hand := []
    handSlots := []
    gameOver := false
    moves := 0
    dailyHits := [(⟨-3, 1⟩, -5), (⟨1, 0⟩, 3)]
    dailyTotalHits := 1
    dailyRemainingHits := -2
    dailyCompleted := false
    dailySeed := some 0
    dailyHandDealCount := some 0
    goldenCellId := none }

/-- Daily-mode state in which every cell of the central flower is both
filled and numbered with 5 remaining hits: clearing the flower refills
all of its cells. -/
def refilledFlowerState : GameState :=
  { mode := GameMode.daily
    board := fillCells createEmptyBoard
      [⟨0, 0⟩, ⟨1, 0⟩, ⟨1, -1⟩, ⟨0, -1⟩, ⟨-1, 0⟩, ⟨-1, 1⟩, ⟨0, 1⟩]
    score := 0
    streak := 0
    hand := []
    handSlots := []
    gameOver := false
    moves := 0
    dailyHits := [(⟨0, 0⟩, 5), (⟨1, 0⟩, 5), (⟨1, -1⟩, 5), (⟨0, -1⟩, 5),
      (⟨-1, 0⟩, 5), (⟨-1, 1⟩, 5), (⟨0, 1⟩, 5)]
    dailyTotalHits := 35
    dailyRemainingHits := 35
    dailyCompleted := false
    dailySeed := some 0
    dailyHandDealCount := some 0
    goldenCellId := none }

/-- The seven flower patterns of the built board, as literals (proved
equal to `FLOWER_PATTERNS` below). -/
def flower0 : Pattern :=
  ⟨"flower-0", PatternType.flower,
    [⟨0, 0⟩, ⟨1, 0⟩, ⟨1, -1⟩, ⟨0, -1⟩, ⟨-1, 0⟩, ⟨-1, 1⟩, ⟨0, 1⟩]⟩

def flower1 : Pattern :=
  ⟨"flower-1", PatternType.flower,
    [⟨-3, 1⟩, ⟨-2, 1⟩, ⟨-2, 0⟩, ⟨-3, 0⟩, ⟨-4, 1⟩, ⟨-4, 2⟩, ⟨-3, 2⟩]⟩

def flower2 : Pattern :=
  ⟨"flower-2", PatternType.flower,
    [⟨-2, 3⟩, ⟨-1, 3⟩, ⟨-1, 2⟩, ⟨-2, 2⟩, ⟨-3, 3⟩, ⟨-3, 4⟩, ⟨-2, 4⟩]⟩

def flower3 : Pattern :=
  ⟨"flower-3", PatternType.flower,
    [⟨-1, -2⟩, ⟨0, -2⟩, ⟨0, -3⟩, ⟨-1, -3⟩, ⟨-2, -2⟩, ⟨-2, -1⟩, ⟨-1, -1⟩]⟩

def flower4 : Pattern :=
  ⟨"flower-4", PatternType.flower,
    [⟨1, 2⟩, ⟨2, 2⟩, ⟨2, 1⟩, ⟨1, 1⟩, ⟨0, 2⟩, ⟨0, 3⟩, ⟨1, 3⟩]⟩

def flower5 : Pattern :=
  ⟨"flower-5", PatternType.flower,
    [⟨2, -3⟩, ⟨3, -3⟩, ⟨3, -4⟩, ⟨2, -4⟩, ⟨1, -3⟩, ⟨1, -2⟩, ⟨2, -2⟩]⟩

def flower6 : Pattern :=
  ⟨"flower-6", PatternType.flower,
    [⟨3, -1⟩, ⟨4, -1⟩, ⟨4, -2⟩, ⟨3, -2⟩, ⟨2, -1⟩, ⟨2, 0⟩, ⟨3, 0⟩]⟩

/-! ### Basic lemmas about the record model -/

theorem alookup_aset {β : Type} (m : List (CellId × β)) (k : CellId) (v : β)
    (x : CellId) :
    alookup (aset m k v) x = if x = k then some v else alookup m x := by
  induction m with
  | nil =>
    by_cases h : k = x
    · subst h
      simp [aset, alookup]
    · have h2 : ¬ x = k := fun hh => h hh.symm
      simp [aset, alookup, h, h2]
  | cons e rest ih =>
    by_cases he : e.1 = k
    · by_cases h : k = x
      · subst h
        simp [aset, alookup, he]
      · have h2 : ¬ x = k := fun hh => h hh.symm
        have h3 : ¬ e.1 = x := he ▸ h
        simp [aset, alookup, he, h, h2, h3]
    · by_cases hex : e.1 = x
      · have h2 : ¬ x = k := fun hh => he (hh ▸ hex)
        simp [aset, alookup, he, hex, h2]
      · simp [aset, alookup, he, hex, ih]

theorem aset_self {β : Type} (m : List (CellId × β)) (k : CellId) (v : β)
    (h : alookup m k = some v) : aset m k v = m := by
  induction m with
  | nil => simp [alookup] at h
  | cons e rest ih =>
    by_cases he : e.1 = k
    · simp [alookup, he] at h
      obtain ⟨e1, e2⟩ := e
      simp at he
      subst he
      simp [aset, ← h]
    · simp [alookup, he] at h
      simp [aset, he, ih h]

theorem alookup_fillCells (board : BoardState) (ids : List CellId) (x : CellId) :
    alookup (fillCells board ids) x =
      if x ∈ ids then some CellState.filled else alookup board x := by
  induction ids generalizing board with
  | nil => simp [fillCells]
  | cons id rest ih =>
    have : fillCells board (id :: rest) =
        fillCells (aset board id CellState.filled) rest := rfl
    rw [this, ih]
    by_cases hx : x ∈ rest
    · simp [hx]
    · by_cases hxi : x = id <;>
        simp [hx, hxi, alookup_aset]

theorem alookup_clearCells (board : BoardState) (ids : List CellId) (x : CellId) :
    alookup (clearCells board ids) x =
      if x ∈ ids then some CellState.empty else alookup board x := by
  induction ids generalizing board with
  | nil => simp [clearCells]
  | cons id rest ih =>
    have : clearCells board (id :: rest) =
        clearCells (aset board id CellState.empty) rest := rfl
    rw [this, ih]
    by_cases hx : x ∈ rest
    · simp [hx]
    · by_cases hxi : x = id <;>
        simp [hx, hxi, alookup_aset]

theorem alookup_refillDaily (board : BoardState) (hits : HitsMap) (x : CellId) :
    alookup (refillDaily board hits) x =
      if hits.any (fun e => decide (e.1 = x) && decide (e.2 > 0)) then
        some CellState.filled
      else alookup board x := by
  induction hits generalizing board with
  | nil => simp [refillDaily]
  | cons e rest ih =>
    have hstep : refillDaily board (e :: rest) =
        refillDaily (if e.2 > 0 then aset board e.1 CellState.filled else board)
          rest := rfl
    rw [hstep, ih]
    by_cases hr : rest.any (fun e2 => decide (e2.1 = x) && decide (e2.2 > 0))
    · simp [List.any_cons, hr]
    · by_cases hpos : e.2 > 0
      · by_cases hx : e.1 = x
        · simp [List.any_cons, hr, hpos, hx, alookup_aset]
        · have : ¬ x = e.1 := fun h => hx h.symm
          simp [List.any_cons, hr, hpos, hx, alookup_aset, this]
      · simp [List.any_cons, hr, hpos]

theorem findClears_patterns_aux (ps : List Pattern) (board : BoardState)
    (init : ClearScan) :
    (ps.foldl
      (fun sc p =>
        if isScoringId p.id && patternFilled board p then
          ⟨sc.clearedPatterns ++ [p], addClearCells sc.clearedCellIds p.cellIds⟩
        else sc)
      init).clearedPatterns =
      init.clearedPatterns ++
        ps.filter (fun p => isScoringId p.id && patternFilled board p) := by
  induction ps generalizing init with
  | nil => simp
  | cons p rest ih =>
    rw [List.foldl_cons]
    by_cases hp : (isScoringId p.id && patternFilled board p) = true
    · have hf : List.filter (fun p => isScoringId p.id && patternFilled board p)
          (p :: rest) =
          p :: List.filter (fun p => isScoringId p.id && patternFilled board p)
            rest := by
        simp [List.filter_cons, hp]
      rw [if_pos hp, ih, hf]
      simp
    · have hf : List.filter (fun p => isScoringId p.id && patternFilled board p)
          (p :: rest) =
          List.filter (fun p => isScoringId p.id && patternFilled board p)
            rest := by
        simp [List.filter_cons, hp]
      rw [if_neg hp, ih, hf]

theorem findClears_patterns (board : BoardState) :
    (findClears board).clearedPatterns =
      BOARD_DEFINITION.patterns.filter
        (fun p => isScoringId p.id && patternFilled board p) := by
  unfold findClears
  rw [findClears_patterns_aux]
  simp

theorem mem_addClearCells (acc : List CellId) (ids : List CellId) (x : CellId) :
    x ∈ addClearCells acc ids ↔ x ∈ acc ∨ x ∈ ids := by
  induction ids generalizing acc with
  | nil => simp [addClearCells]
  | cons id rest ih =>
    have hstep : addClearCells acc (id :: rest) =
        addClearCells
          (if acc.any (fun y => decide (y = id)) then acc else acc ++ [id])
          rest := rfl
    rw [hstep]
    by_cases ha : (acc.any (fun y => decide (y = id))) = true
    · rw [if_pos ha, ih]
      have hmem : id ∈ acc := by
        simpa using ha
      constructor
      · rintro (h | h)
        · exact Or.inl h
        · exact Or.inr (List.mem_cons_of_mem _ h)
      · rintro (h | h)
        · exact Or.inl h
        · rcases List.mem_cons.mp h with h2 | h2
          · exact Or.inl (h2 ▸ hmem)
          · exact Or.inr h2
    · rw [if_neg ha, ih]
      simp only [List.mem_append, List.mem_singleton, List.mem_cons]
      tauto

theorem findClears_cells_aux (ps : List Pattern) (board : BoardState)
    (init : ClearScan) (x : CellId) :
    (x ∈ (ps.foldl
      (fun sc p =>
        if isScoringId p.id && patternFilled board p then
          ⟨sc.clearedPatterns ++ [p], addClearCells sc.clearedCellIds p.cellIds⟩
        else sc)
      init).clearedCellIds) ↔
      x ∈ init.clearedCellIds ∨
        ∃ p ∈ ps.filter (fun p => isScoringId p.id && patternFilled board p),
          x ∈ p.cellIds := by
  induction ps generalizing init with
  | nil => simp
  | cons p rest ih =>
    rw [List.foldl_cons]
    by_cases hp : (isScoringId p.id && patternFilled board p) = true
    · have hf : List.filter (fun p => isScoringId p.id && patternFilled board p)
          (p :: rest) =
          p :: List.filter (fun p => isScoringId p.id && patternFilled board p)
            rest := by
        simp [List.filter_cons, hp]
      rw [if_pos hp, ih, hf]
      simp only [mem_addClearCells, List.mem_cons]
      constructor
      · rintro ((h | h) | h)
        · exact Or.inl h
        · exact Or.inr ⟨p, Or.inl rfl, h⟩
        · rcases h with ⟨p2, hp2, hx2⟩
          exact Or.inr ⟨p2, Or.inr hp2, hx2⟩
      · rintro (h | ⟨p2, hp2, hx2⟩)
        · exact Or.inl (Or.inl h)
        · rcases hp2 with h2 | h2
          · exact Or.inl (Or.inr (h2 ▸ hx2))
          · exact Or.inr ⟨p2, h2, hx2⟩
    · have hf : List.filter (fun p => isScoringId p.id && patternFilled board p)
          (p :: rest) =
          List.filter (fun p => isScoringId p.id && patternFilled board p)
            rest := by
        simp [List.filter_cons, hp]
      rw [if_neg hp, ih, hf]

theorem mem_findClears_cells (board : BoardState) (x : CellId) :
    x ∈ (findClears board).clearedCellIds ↔
      ∃ p ∈ (findClears board).clearedPatterns, x ∈ p.cellIds := by
  rw [findClears_patterns]
  unfold findClears
  rw [findClears_cells_aux]
  simp

theorem mem_findClears_patterns (board : BoardState) (p : Pattern) :
    p ∈ (findClears board).clearedPatterns ↔
      p ∈ BOARD_DEFINITION.patterns ∧ isScoringId p.id = true ∧
        patternFilled board p = true := by
  rw [findClears_patterns]
  simp [List.mem_filter]

/-! ### The placement loop -/

theorem placeLoop_eq_none_iff (board : BoardState) (origin : Axial)
    (cells : List Axial) :
    placeLoop board origin cells = none ↔
      ∃ rel ∈ cells,
        alookup board (axialToId (addAxial origin rel)) ≠
          some CellState.empty := by
  induction cells with
  | nil => simp [placeLoop]
  | cons rel rest ih =>
    show (match alookup board ⟨origin.q + rel.q, origin.r + rel.r⟩ with
      | none => none
      | some st =>
        if st = CellState.empty then
          match placeLoop board origin rest with
          | none => none
          | some ids => some ((⟨origin.q + rel.q, origin.r + rel.r⟩ : CellId) :: ids)
        else none) = none ↔ _
    rcases hlk : alookup board ⟨origin.q + rel.q, origin.r + rel.r⟩ with _ | st
    · simp only [axialToId, addAxial]
      constructor
      · intro _
        exact ⟨rel, List.mem_cons_self _ _, by rw [hlk]; simp⟩
      · intro _
        trivial
    · by_cases hst : st = CellState.empty
      · subst hst
        rcases hrec : placeLoop board origin rest with _ | ids
        · simp only [axialToId, addAxial]
          constructor
          · intro _
            rcases ih.mp hrec with ⟨r2, hr2, hne⟩
            exact ⟨r2, List.mem_cons_of_mem _ hr2, hne⟩
          · intro _
            trivial
        · simp only [axialToId, addAxial]
          constructor
          · intro h
            exact absurd h (by simp)
          · rintro ⟨r2, hr2, hne⟩
            rcases List.mem_cons.mp hr2 with h2 | h2
            · subst h2
              rw [hlk] at hne
              simp at hne
            · have : placeLoop board origin rest = none := by
                rw [ih]
                exact ⟨r2, h2, hne⟩
              rw [this] at hrec
              cases hrec
      · simp only [axialToId, addAxial]
        constructor
        · intro _
          refine ⟨rel, List.mem_cons_self _ _, ?_⟩
          rw [hlk]
          simp [hst]
        · intro _
          simp [hst]

theorem placeLoop_eq_some (board : BoardState) (origin : Axial)
    (cells : List Axial) (ts : List CellId)
    (h : placeLoop board origin cells = some ts) :
    ts = cells.map (fun rel => axialToId (addAxial origin rel)) ∧
      ∀ id ∈ ts, alookup board id = some CellState.empty := by
  induction cells generalizing ts with
  | nil =>
    simp [placeLoop] at h
    subst h
    simp
  | cons rel rest ih =>
    revert h
    show (match alookup board ⟨origin.q + rel.q, origin.r + rel.r⟩ with
      | none => none
      | some st =>
        if st = CellState.empty then
          match placeLoop board origin rest with
          | none => none
          | some ids => some ((⟨origin.q + rel.q, origin.r + rel.r⟩ : CellId) :: ids)
        else none) = some ts → _
    rcases hlk : alookup board ⟨origin.q + rel.q, origin.r + rel.r⟩ with _ | st
    · intro h
      cases h
    · by_cases hst : st = CellState.empty
      · subst hst
        rcases hrec : placeLoop board origin rest with _ | ids
        · intro h
          simp at h
        · intro h
          simp at h
          subst h
          rcases ih ids hrec with ⟨hmap, hemp⟩
          constructor
          · rw [List.map_cons, ← hmap]
            rfl
          · intro id hid
            rcases List.mem_cons.mp hid with h2 | h2
            · subst h2
              exact hlk
            · exact hemp id h2
      · intro h
        simp [hst] at h

set_option maxRecDepth 100000 in
theorem board_cell_ids_nodup : (BOARD_DEFINITION.cells.map Cell.id).Nodup := by
  decide

theorem find_cell_eq_some (originCellId : CellId) (c : Cell)
    (hc : c ∈ BOARD_DEFINITION.cells) (hid : c.id = originCellId) :
    BOARD_DEFINITION.cells.find? (fun c2 => decide (c2.id = originCellId)) =
      some c := by
  have hnd := board_cell_ids_nodup
  revert hnd hc
  induction BOARD_DEFINITION.cells with
  | nil =>
    intro hc _
    cases hc
  | cons e rest ih =>
    intro hc hnd
    have hnd2 : e.id ∉ rest.map Cell.id ∧ (rest.map Cell.id).Nodup := by
      simpa [List.nodup_cons] using hnd
    by_cases he : e.id = originCellId
    · have hfind : (e :: rest).find? (fun c2 => decide (c2.id = originCellId)) =
          some e := by
        simp [List.find?_cons, he]
      rw [hfind]
      rcases List.mem_cons.mp hc with h2 | h2
      · rw [h2]
      · exfalso
        have hmem : c.id ∈ rest.map Cell.id := List.mem_map_of_mem _ h2
        rw [hid, ← he] at hmem
        exact hnd2.1 hmem
    · have hfind : (e :: rest).find? (fun c2 => decide (c2.id = originCellId)) =
          rest.find? (fun c2 => decide (c2.id = originCellId)) := by
        simp [List.find?_cons, he]
      rw [hfind]
      rcases List.mem_cons.mp hc with h2 | h2
      · exact absurd (h2 ▸ hid) he
      · exact ih h2 hnd2.2

set_option maxRecDepth 1000000 in
/-- C1: `canPlacePiece(board, shape, originCellId)` returns null iff the
origin id is not a board cell, or some target cell (origin coordinate
plus a shape offset) is off the board record, or some target cell is not
empty; on success it returns the full target id list, in the shape's
cell order, of length equal to the shape's cell count, every returned id
mapping to empty on the input board. -/
theorem C1_canPlacePiece_spec (board : BoardState) (piece : PieceShape)
    (originCellId : CellId) :
    (canPlacePiece board piece originCellId = none ↔
      (¬ ∃ c ∈ BOARD_DEFINITION.cells, c.id = originCellId) ∨
      (∃ c ∈ BOARD_DEFINITION.cells, c.id = originCellId ∧
        ((∃ rel ∈ piece.cells,
            alookup board (axialToId (addAxial c.coord rel)) = none) ∨
         (∃ rel ∈ piece.cells, ∃ st,
            alookup board (axialToId (addAxial c.coord rel)) = some st ∧
              st ≠ CellState.empty)))) ∧
    (∀ ts, canPlacePiece board piece originCellId = some ts →
      ∃ c ∈ BOARD_DEFINITION.cells, c.id = originCellId ∧
        ts = piece.cells.map (fun rel => axialToId (addAxial c.coord rel)) ∧
        ts.length = piece.cells.length ∧
        ∀ id ∈ ts, alookup board id = some CellState.empty) := by
  constructor
  · rcases hfind : BOARD_DEFINITION.cells.find?
        (fun c2 => decide (c2.id = originCellId)) with _ | c0
    · have hnone : ∀ c ∈ BOARD_DEFINITION.cells, ¬ c.id = originCellId := by
        intro c hc
        have := List.find?_eq_none.mp hfind c hc
        simpa using this
      have : canPlacePiece board piece originCellId = none := by
        unfold canPlacePiece
        rw [hfind]
      rw [this]
      simp only [true_iff]
      left
      rintro ⟨c, hc, hid⟩
      exact hnone c hc hid
    · have hc0mem : c0 ∈ BOARD_DEFINITION.cells :=
        List.mem_of_find?_eq_some hfind
      have hc0id : c0.id = originCellId := by
        have := List.find?_some hfind
        simpa using this
      have hcp : canPlacePiece board piece originCellId =
          placeLoop board c0.coord piece.cells := by
        unfold canPlacePiece
        rw [hfind]
      rw [hcp, placeLoop_eq_none_iff]
      constructor
      · rintro ⟨rel, hrel, hne⟩
        right
        refine ⟨c0, hc0mem, hc0id, ?_⟩
        rcases hlk : alookup board (axialToId (addAxial c0.coord rel)) with _ | st
        · exact Or.inl ⟨rel, hrel, hlk⟩
        · right
          refine ⟨rel, hrel, st, hlk, ?_⟩
          intro hst
          rw [hlk, hst] at hne
          exact hne rfl
      · rintro (habs | ⟨c, hc, hid, hbad⟩)
        · exact absurd ⟨c0, hc0mem, hc0id⟩ habs
        · have hceq : c = c0 := by
            have := find_cell_eq_some originCellId c hc hid
            rw [hfind] at this
            injection this with h
            exact h.symm
          subst hceq
          rcases hbad with ⟨rel, hrel, hlk⟩ | ⟨rel, hrel, st, hlk, hst⟩
          · exact ⟨rel, hrel, by rw [hlk]; simp⟩
          · exact ⟨rel, hrel, by rw [hlk]; simp [hst]⟩
  · intro ts hts
    rcases hfind : BOARD_DEFINITION.cells.find?
        (fun c2 => decide (c2.id = originCellId)) with _ | c0
    · unfold canPlacePiece at hts
      rw [hfind] at hts
      cases hts
    · have hc0mem : c0 ∈ BOARD_DEFINITION.cells :=
        List.mem_of_find?_eq_some hfind
      have hc0id : c0.id = originCellId := by
        have := List.find?_some hfind
        simpa using this
      unfold canPlacePiece at hts
      rw [hfind] at hts
      rcases placeLoop_eq_some board c0.coord piece.cells ts hts with ⟨hmap, hemp⟩
      exact ⟨c0, hc0mem, hc0id, hmap, by rw [hmap]; simp, hemp⟩

set_option maxRecDepth 1000000 in
/-- Witness for C1: on the empty board, placing the single-cell shape at
the origin cell succeeds with the expected one-element target list. -/
theorem C1_witness :
    ∃ c ∈ BOARD_DEFINITION.cells, c.id = (⟨0, 0⟩ : CellId) ∧
      [(⟨0, 0⟩ : CellId)] =
        (List.map (fun rel => axialToId (addAxial c.coord rel))
          [(⟨0, 0⟩ : Axial)]) ∧
      [(⟨0, 0⟩ : CellId)].length = [(⟨0, 0⟩ : Axial)].length ∧
      ∀ id ∈ [(⟨0, 0⟩ : CellId)],
        alookup createEmptyBoard id = some CellState.empty :=
  (C1_canPlacePiece_spec createEmptyBoard ⟨"shape-1-0", [⟨0, 0⟩], 1⟩
    (⟨0, 0⟩ : CellId)).2 [(⟨0, 0⟩ : CellId)] (by decide)

set_option maxRecDepth 1000000 in
/-- C3: `buildBoard()` deterministically produces exactly 49 cells, the
union of the 7 rosettes of 7 cells each: there are exactly 7 flower
patterns, each with exactly 7 cells, covering every board cell, no cell
shared between two flowers, and every line pattern listed in
`scoringLineIds` has exactly 7 cells. -/
theorem C3_buildBoard_structure :
    BOARD_DEFINITION = buildBoard ∧
    BOARD_DEFINITION.cells.length = 49 ∧
    BOARD_DEFINITION.flowerIds.length = 7 ∧
    FLOWER_PATTERNS.length = 7 ∧
    (∀ p ∈ FLOWER_PATTERNS, p.cellIds.length = 7) ∧
    (∀ c ∈ BOARD_DEFINITION.cells,
      ∃ p ∈ FLOWER_PATTERNS, c.id ∈ p.cellIds) ∧
    List.Pairwise (fun p q => ∀ c ∈ p.cellIds, c ∉ q.cellIds)
      FLOWER_PATTERNS ∧
    (∀ id ∈ BOARD_DEFINITION.scoringLineIds,
      ∀ p ∈ BOARD_DEFINITION.patterns, p.id = id → p.cellIds.length = 7) := by
  refine ⟨rfl, ?_, ?_, ?_, ?_, ?_, ?_, ?_⟩ <;> decide

/-- C8 counterexample: for seed 0 the first call returns
`1013904223 / (2^32 - 1)` (the source divides by `0xffffffff`), which is
not the claimed `state / 2^32`. -/
theorem C8_counterexample :
    seededOut 0 0 = (1013904223 : Rat) / 4294967295 ∧
      seededOut 0 0 ≠ (1013904223 : Rat) / 4294967296 := by
  have h1 : lcgState 0 1 = 1013904223 := by decide
  have h2 : seededOut 0 0 = (1013904223 : Rat) / 4294967295 := by
    unfold seededOut
    rw [h1]
    norm_num
  refine ⟨h2, ?_⟩
  rw [h2]
  intro h
  rw [div_eq_div_iff (by norm_num) (by norm_num)] at h
  norm_num at h

set_option maxRecDepth 4000 in
/-- C8 amended: the generator updates its state by
`state = (state * 1664525 + 1013904223) mod 2^32` and each call returns
`state / (2^32 - 1)`, so every output lies in the closed interval [0,1]
(the output can equal 1, when the new state is `2^32 - 1`). -/
theorem C8_lcg_spec (seed : Int) (n : Nat) :
    lcgState seed (n + 1) =
      (lcgState seed n * 1664525 + 1013904223) % 4294967296 ∧
    seededOut seed n = ((lcgState seed (n + 1) : Rat)) / (4294967296 - 1) ∧
    lcgState seed (n + 1) < 4294967296 ∧
    0 ≤ seededOut seed n ∧ seededOut seed n ≤ 1 := by
  have hlt : ∀ m : Nat, lcgNext m < 4294967296 :=
    fun m => Nat.mod_lt _ (by norm_num)
  have hb : lcgState seed (n + 1) ≤ 4294967295 := by
    have h := hlt (lcgState seed n)
    show lcgNext (lcgState seed n) ≤ 4294967295
    omega
  refine ⟨rfl, ?_, hlt (lcgState seed n), ?_, ?_⟩
  · show ((lcgState seed (n + 1) : Rat)) / 4294967295 =
      ((lcgState seed (n + 1) : Rat)) / (4294967296 - 1)
    norm_num
  · show (0 : Rat) ≤ ((lcgState seed (n + 1) : Rat)) / 4294967295
    exact div_nonneg (Nat.cast_nonneg _) (by norm_num)
  · show ((lcgState seed (n + 1) : Rat)) / 4294967295 ≤ 1
    rw [div_le_one (by norm_num)]
    exact_mod_cast hb

/-! ### Unfolding lemmas for `applyPlacement` -/

theorem applyPlacement_noclears_eq (shuffledCells : List Cell)
    (current : GameState) (piece : ActivePiece) (originCellId : CellId)
    (core : CoreResult)
    (h : applyPlacementCore current piece originCellId = some core)
    (hz : core.clearedPatterns.length = 0) :
    applyPlacement shuffledCells current piece originCellId =
      some
        { board := core.board
          clearedCellIds := []
          clearedPatterns := []
          placedCellIds := core.placedCellIds
          pointsGained := 0
          comboMultiplier := 1
          streakMultiplier := 1
          dailyHits := core.dailyHits
          dailyTotalHits := current.dailyTotalHits
          dailyRemainingHits := core.dailyRemainingHits
          dailyCompleted := core.dailyCompleted
          goldenCellId := current.goldenCellId
          goldenCleared := false } := by
  unfold applyPlacement
  rw [h]
  simp [hz]

theorem applyPlacement_clears_eq (shuffledCells : List Cell)
    (current : GameState) (piece : ActivePiece) (originCellId : CellId)
    (core : CoreResult)
    (h : applyPlacementCore current piece originCellId = some core)
    (hn : ¬ core.clearedPatterns.length = 0) :
    applyPlacement shuffledCells current piece originCellId =
      some
        { board :=
            if decide (current.mode = GameMode.endless) && core.goldenCleared
            then
              (spawnGoldenCell core.board
                (forbiddenForRespawn current.goldenCellId) shuffledCells).1
            else core.board
          clearedCellIds := core.clearedCellIds
          clearedPatterns := core.clearedPatterns
          placedCellIds := core.placedCellIds
          pointsGained :=
            jsRound
              ((((10 * (core.clearedPatterns.length : Int) +
                (if !boardAllEmpty current.board && boardAllEmpty core.board
                 then 25 else 0) +
                (if decide (current.mode = GameMode.endless) &&
                    core.goldenCleared then 10 else 0)) : Int) : Rat) *
                (1 + (1 / 2) * (((core.clearedPatterns.length : Int) : Rat) - 1)) *
                (1 + (1 / 10) * (current.streak : Rat)))
          comboMultiplier :=
            1 + (1 / 2) * (((core.clearedPatterns.length : Int) : Rat) - 1)
          streakMultiplier := 1 + (1 / 10) * (current.streak : Rat)
          dailyHits := core.dailyHits
          dailyTotalHits := current.dailyTotalHits
          dailyRemainingHits := core.dailyRemainingHits
          dailyCompleted := core.dailyCompleted
          goldenCellId :=
            if decide (current.mode = GameMode.endless) && core.goldenCleared
            then
              (spawnGoldenCell core.board
                (forbiddenForRespawn current.goldenCellId) shuffledCells).2
            else current.goldenCellId
          goldenCleared := core.goldenCleared } := by
  unfold applyPlacement
  rw [h]
  simp only [hn, if_neg hn, if_false, apply_ite Prod.fst, apply_ite Prod.snd]

set_option maxRecDepth 2000000 in
/-- C2 amended: for every successful placement clearing `n ≥ 1` patterns,
`pointsGained = round((10n + boardClearedBonus + goldenBonus) * (1 +
0.5(n-1)) * (1 + 0.1 * streak))`, where `boardClearedBonus` is 25 exactly
when the pre-placement board was not entirely empty and the board after
clearing and daily refill — before any golden respawn (`core.board`
below) — is entirely empty, and `goldenBonus` is 10 exactly when the
game is endless and the bonus cell was cleared this move.  (The claim's
original reading, with the bonus tied to the *returned* board, fails
when a golden respawn re-fills a cell of a just-emptied board; see the
counterexample.) -/
theorem C2_score_formula (shuffledCells : List Cell) (current : GameState)
    (piece : ActivePiece) (originCellId : CellId) (res : PlacementResult)
    (h : applyPlacement shuffledCells current piece originCellId = some res)
    (hn : 1 ≤ res.clearedPatterns.length) :
    ∃ core, applyPlacementCore current piece originCellId = some core ∧
      res.clearedPatterns = core.clearedPatterns ∧
      res.goldenCleared = core.goldenCleared ∧
      res.comboMultiplier =
        1 + (1 / 2) * (((res.clearedPatterns.length : Int) : Rat) - 1) ∧
      res.streakMultiplier = 1 + (1 / 10) * (current.streak : Rat) ∧
      res.pointsGained =
        jsRound
          ((((10 * (res.clearedPatterns.length : Int) +
            (if boardAllEmpty current.board = false ∧
                boardAllEmpty core.board = true then 25 else 0) +
            (if current.mode = GameMode.endless ∧ res.goldenCleared = true
             then 10 else 0)) : Int) : Rat) *
            res.comboMultiplier * res.streakMultiplier) := by
  rcases hcore : applyPlacementCore current piece originCellId with _ | core
  · exfalso
    unfold applyPlacement at h
    rw [hcore] at h
    cases h
  · by_cases hz : core.clearedPatterns.length = 0
    · exfalso
      have happ := applyPlacement_noclears_eq shuffledCells current piece
        originCellId core hcore hz
      rw [happ] at h
      injection h with h2
      rw [← h2] at hn
      simp at hn
    · have happ := applyPlacement_clears_eq shuffledCells current piece
        originCellId core hcore hz
      rw [happ] at h
      injection h with h2
      subst h2
      refine ⟨core, rfl, rfl, rfl, rfl, rfl, ?_⟩
      have hbcb : (if !boardAllEmpty current.board && boardAllEmpty core.board
          then (25 : Int) else 0) =
          (if boardAllEmpty current.board = false ∧
              boardAllEmpty core.board = true then (25 : Int) else 0) := by
        by_cases hc : boardAllEmpty current.board = false ∧
            boardAllEmpty core.board = true
        · rw [if_pos hc, if_pos (by simp [hc.1, hc.2])]
        · rw [if_neg hc, if_neg]
          intro hb
          apply hc
          constructor
          · rcases Bool.and_eq_true _ _ |>.mp hb with ⟨hb1, _⟩
            simpa using hb1
          · exact (Bool.and_eq_true _ _ |>.mp hb).2
      have hgb : (if decide (current.mode = GameMode.endless) &&
          core.goldenCleared then (10 : Int) else 0) =
          (if current.mode = GameMode.endless ∧ core.goldenCleared = true
           then (10 : Int) else 0) := by
        by_cases hc : current.mode = GameMode.endless ∧
            core.goldenCleared = true
        · rw [if_pos hc, if_pos (by simp [hc.1, hc.2])]
        · rw [if_neg hc, if_neg]
          intro hb
          apply hc
          rcases Bool.and_eq_true _ _ |>.mp hb with ⟨hb1, hb2⟩
          exact ⟨by simpa using hb1, hb2⟩
      simp only [← hbcb, ← hgb]

set_option maxRecDepth 2000000 in
/-- C2 counterexample: in endless mode, a move that clears the whole
board and the golden cube gets the 25-point bonus computed before the
golden respawn re-fills a cell, so the returned board is *not* empty：the
code returns 45 points while the claim's formula over the returned board
yields 20. -/
theorem C2_counterexample :
    (applyPlacement BOARD_DEFINITION.cells goldenClearState singleCellPiece
        ⟨0, 0⟩).map PlacementResult.pointsGained = some 45 ∧
    (applyPlacement BOARD_DEFINITION.cells goldenClearState singleCellPiece
        ⟨0, 0⟩).map
      (fun res =>
        jsRound
          ((((10 * (res.clearedPatterns.length : Int) +
            (if boardAllEmpty goldenClearState.board = false ∧
                boardAllEmpty res.board = true then 25 else 0) +
            (if goldenClearState.mode = GameMode.endless ∧
                res.goldenCleared = true then 10 else 0)) : Int) : Rat) *
            res.comboMultiplier * res.streakMultiplier)) = some 20 ∧
    (45 : Int) ≠ 20 := by
  have hcore : applyPlacementCore goldenClearState singleCellPiece ⟨0, 0⟩ =
      some goldenClearCore := by decide
  have hn : ¬ goldenClearCore.clearedPatterns.length = 0 := by decide
  have happ := applyPlacement_clears_eq BOARD_DEFINITION.cells
    goldenClearState singleCellPiece ⟨0, 0⟩ goldenClearCore hcore hn
  have hlen : goldenClearCore.clearedPatterns.length = 1 := by decide
  have hb1 : boardAllEmpty goldenClearState.board = false := by decide
  have hb2 : boardAllEmpty goldenClearCore.board = true := by decide
  have hgc : goldenClearCore.goldenCleared = true := by decide
  have hb3 : boardAllEmpty
      (spawnGoldenCell goldenClearCore.board
        (forbiddenForRespawn goldenClearState.goldenCellId)
        BOARD_DEFINITION.cells).1 = false := by decide
  have hmode : goldenClearState.mode = GameMode.endless := rfl
  have hstreak : goldenClearState.streak = 0 := rfl
  refine ⟨?_, ?_, by norm_num⟩
  · rw [happ]
    simp only [Option.map_some']
    refine congrArg some ?_
    show jsRound _ = 45
    rw [hlen, hb1, hb2, hgc, hmode, hstreak]
    norm_num [jsRound]
  · rw [happ]
    simp only [Option.map_some']
    refine congrArg some ?_
    show jsRound _ = 20
    have hcond : (decide (goldenClearState.mode = GameMode.endless) &&
        goldenClearCore.goldenCleared) = true := by decide
    simp [hcond, hlen, hb1, hb2, hgc, hb3, hstreak, hmode]
    norm_num [jsRound]

set_option maxRecDepth 2000000 in
/-- Witness for C2: three simultaneous line clears at streak 2 with no
bonuses yield 72 points, through the amended formula. -/
theorem C2_witness :
    (applyPlacement BOARD_DEFINITION.cells tripleClearState tripleClearPiece
        ⟨0, 1⟩).map PlacementResult.pointsGained = some 72 := by
  have hcore : applyPlacementCore tripleClearState tripleClearPiece ⟨0, 1⟩ =
      some tripleClearCore := by decide
  have hn : ¬ tripleClearCore.clearedPatterns.length = 0 := by decide
  have happ := applyPlacement_clears_eq BOARD_DEFINITION.cells
    tripleClearState tripleClearPiece ⟨0, 1⟩ tripleClearCore hcore hn
  obtain ⟨core2, hc2, hcp, hgcl, hcm, hsm, hp⟩ :=
    C2_score_formula BOARD_DEFINITION.cells tripleClearState tripleClearPiece
      ⟨0, 1⟩ _ happ (by decide)
  have hcore2 : core2 = tripleClearCore := by
    rw [hcore] at hc2
    injection hc2 with h2
    exact h2.symm
  subst hcore2
  rw [happ]
  simp only [Option.map_some']
  refine congrArg some ?_
  have hlen : tripleClearCore.clearedPatterns.length = 3 := by decide
  have hcond : (decide (tripleClearState.mode = GameMode.endless) &&
      tripleClearCore.goldenCleared) = false := by decide
  have hbcb : (!boardAllEmpty tripleClearState.board &&
      boardAllEmpty tripleClearCore.board) = false := by decide
  have hstreak : tripleClearState.streak = 2 := rfl
  show jsRound _ = 72
  simp only [hlen, hcond, hbcb, hstreak]
  norm_num [jsRound]

/-! ### Daily hit bookkeeping lemmas -/

theorem alookup_bumpCount (m : List (CellId × Nat)) (c x : CellId) :
    alookup (bumpCount m c) x =
      if x = c then some ((alookup m c).getD 0 + 1) else alookup m x := by
  unfold bumpCount
  rcases h : alookup m c with _ | n
  · rw [alookup_aset]
    simp [h]
  · rw [alookup_aset]
    simp [h]

theorem perCell_inner_lookup (cells : List CellId) (hits : HitsMap)
    (m : List (CellId × Nat)) (x : CellId) (hnd : cells.Nodup) :
    alookup
      (cells.foldl
        (fun m2 cellId =>
          match alookup hits cellId with
          | some h => if h > 0 then bumpCount m2 cellId else m2
          | none => m2)
        m) x =
      if x ∈ cells ∧ 0 < (alookup hits x).getD 0 then
        some ((alookup m x).getD 0 + 1)
      else alookup m x := by
  induction cells generalizing m with
  | nil => simp
  | cons c rest ih =>
    have hnd2 : rest.Nodup := hnd.of_cons
    have hcn : c ∉ rest := by
      intro hc
      exact (List.nodup_cons.mp hnd).1 hc
    rw [List.foldl_cons]
    rcases hl : alookup hits c with _ | hv
    · rw [ih _ hnd2]
      by_cases hx : x = c
      · subst hx
        simp [hl, hcn]
      · by_cases hxr : x ∈ rest ∧ 0 < (alookup hits x).getD 0
        · simp [hxr, List.mem_cons, hxr.1, hxr.2]
        · have : ¬ (x ∈ c :: rest ∧ 0 < (alookup hits x).getD 0) := by
            rintro ⟨hm, hp⟩
            rcases List.mem_cons.mp hm with h2 | h2
            · exact hx h2
            · exact hxr ⟨h2, hp⟩
          rw [if_neg hxr, if_neg this]
    · by_cases hpos : hv > 0
      · simp only [hl, if_pos hpos]
        rw [ih _ hnd2]
        by_cases hx : x = c
        · subst hx
          have hgd : (alookup hits x).getD 0 = hv := by simp [hl]
          simp only [alookup_bumpCount, if_pos rfl, hcn, hgd]
          simp [hpos, hcn]
        · rw [alookup_bumpCount, if_neg hx]
          by_cases hxr : x ∈ rest ∧ 0 < (alookup hits x).getD 0
          · simp [hxr, List.mem_cons, hxr.1, hxr.2]
          · have : ¬ (x ∈ c :: rest ∧ 0 < (alookup hits x).getD 0) := by
              rintro ⟨hm, hp⟩
              rcases List.mem_cons.mp hm with h2 | h2
              · exact hx h2
              · exact hxr ⟨h2, hp⟩
            rw [if_neg hxr, if_neg this]
      · simp only [hl, if_neg hpos]
        rw [ih _ hnd2]
        have hgd : ¬ 0 < (alookup hits c).getD 0 := by
          simp [hl]
          omega
        by_cases hx : x = c
        · subst hx
          simp [hgd, hcn]
        · by_cases hxr : x ∈ rest ∧ 0 < (alookup hits x).getD 0
          · simp [hxr, List.mem_cons, hxr.1, hxr.2]
          · have : ¬ (x ∈ c :: rest ∧ 0 < (alookup hits x).getD 0) := by
              rintro ⟨hm, hp⟩
              rcases List.mem_cons.mp hm with h2 | h2
              · exact hx h2
              · exact hxr ⟨h2, hp⟩
            rw [if_neg hxr, if_neg this]

theorem perCell_outer_lookup (ps : List Pattern) (hits : HitsMap)
    (m : List (CellId × Nat)) (x : CellId)
    (hnd : ∀ p ∈ ps, p.cellIds.Nodup) :
    alookup
      (ps.foldl
        (fun m2 p =>
          p.cellIds.foldl
            (fun m3 cellId =>
              match alookup hits cellId with
              | some h => if h > 0 then bumpCount m3 cellId else m3
              | none => m3)
            m2)
        m) x =
      if 0 < (alookup hits x).getD 0 ∧
          0 < (ps.filter (fun p => decide (x ∈ p.cellIds))).length then
        some ((alookup m x).getD 0 +
          (ps.filter (fun p => decide (x ∈ p.cellIds))).length)
      else alookup m x := by
  induction ps generalizing m with
  | nil => simp
  | cons p rest ih =>
    rw [List.foldl_cons]
    rw [ih _ (fun q hq => hnd q (List.mem_cons_of_mem _ hq))]
    rw [perCell_inner_lookup _ _ _ _ (hnd p (List.mem_cons_self _ _))]
    by_cases hpos : 0 < (alookup hits x).getD 0
    · by_cases hxp : x ∈ p.cellIds
      · have hfc : (List.filter (fun p => decide (x ∈ p.cellIds)) (p :: rest)) =
            p :: List.filter (fun p => decide (x ∈ p.cellIds)) rest := by
          simp [List.filter_cons, hxp]
        rw [hfc, if_pos (And.intro hxp hpos)]
        by_cases hr :
            0 < (List.filter (fun p => decide (x ∈ p.cellIds)) rest).length
        · rw [if_pos ⟨hpos, hr⟩, if_pos ⟨hpos, by simp⟩]
          simp only [Option.getD_some, List.length_cons]
          congr 1
          omega
        · have hz :
              (List.filter (fun p => decide (x ∈ p.cellIds)) rest).length = 0 := by
            omega
          rw [if_neg (fun hh => hr hh.2), if_pos ⟨hpos, by simp⟩]
          simp [hz]
      · have hfc : (List.filter (fun p => decide (x ∈ p.cellIds)) (p :: rest)) =
            List.filter (fun p => decide (x ∈ p.cellIds)) rest := by
          simp [List.filter_cons, hxp]
        have hn1 : ¬ (x ∈ p.cellIds ∧ 0 < (alookup hits x).getD 0) :=
          fun hh => hxp hh.1
        rw [hfc, if_neg hn1]
    · have hn1 : ¬ (x ∈ p.cellIds ∧ 0 < (alookup hits x).getD 0) :=
        fun hh => hpos hh.2
      have hn2 : ¬ (0 < (alookup hits x).getD 0 ∧
          0 < (List.filter (fun p => decide (x ∈ p.cellIds)) rest).length) :=
        fun hh => hpos hh.1
      have hn3 : ¬ (0 < (alookup hits x).getD 0 ∧
          0 < (List.filter (fun p => decide (x ∈ p.cellIds)) (p :: rest)).length) :=
        fun hh => hpos hh.1
      rw [if_neg hn1, if_neg hn2, if_neg hn3]

theorem perCellHitCounts_lookup (ps : List Pattern) (hits : HitsMap)
    (x : CellId) (hnd : ∀ p ∈ ps, p.cellIds.Nodup) :
    alookup (perCellHitCounts ps hits) x =
      if 0 < (alookup hits x).getD 0 ∧
          0 < (ps.filter (fun p => decide (x ∈ p.cellIds))).length then
        some (ps.filter (fun p => decide (x ∈ p.cellIds))).length
      else none := by
  unfold perCellHitCounts
  rw [perCell_outer_lookup _ _ _ _ hnd]
  by_cases hc : 0 < (alookup hits x).getD 0 ∧
      0 < (ps.filter (fun p => decide (x ∈ p.cellIds))).length
  · rw [if_pos hc, if_pos hc]
    simp [alookup]
  · rw [if_neg hc, if_neg hc]
    simp [alookup]

theorem aset_keys {β : Type} (m : List (CellId × β)) (k : CellId) (v : β) :
    (aset m k v).map Prod.fst =
      if k ∈ m.map Prod.fst then m.map Prod.fst
      else m.map Prod.fst ++ [k] := by
  induction m with
  | nil => simp [aset]
  | cons e rest ih =>
    by_cases he : e.1 = k
    · simp only [aset, if_pos he, List.map_cons]
      rw [if_pos (by simp [he])]
      rw [he]
    · simp only [aset, if_neg he, List.map_cons, ih]
      have hne : ¬ k = e.1 := fun hh => he hh.symm
      by_cases hk : k ∈ rest.map Prod.fst
      · rw [if_pos hk, if_pos (by simp [hk])]
      · rw [if_neg hk, if_neg (by simp [hne, hk])]
        simp

theorem aset_keys_nodup {β : Type} (m : List (CellId × β)) (k : CellId)
    (v : β) (hnd : (m.map Prod.fst).Nodup) :
    ((aset m k v).map Prod.fst).Nodup := by
  rw [aset_keys]
  by_cases hk : k ∈ m.map Prod.fst
  · rw [if_pos hk]
    exact hnd
  · rw [if_neg hk]
    simp [List.nodup_append, hnd, hk]

theorem perCellHitCounts_keys_nodup (ps : List Pattern) (hits : HitsMap) :
    ((perCellHitCounts ps hits).map Prod.fst).Nodup := by
  unfold perCellHitCounts
  have hstep : ∀ (cells : List CellId) (m : List (CellId × Nat)),
      (m.map Prod.fst).Nodup →
        ((cells.foldl
          (fun m2 cellId =>
            match alookup hits cellId with
            | some h => if h > 0 then bumpCount m2 cellId else m2
            | none => m2)
          m).map Prod.fst).Nodup := by
    intro cells
    induction cells with
    | nil => intro m hm; exact hm
    | cons c rest ih =>
      intro m hm
      rw [List.foldl_cons]
      apply ih
      rcases alookup hits c with _ | hv
      · exact hm
      · by_cases hp : hv > 0
        · simp only [hp, if_pos hp]
          unfold bumpCount
          rcases alookup m c with _ | n
          · exact aset_keys_nodup _ _ _ hm
          · exact aset_keys_nodup _ _ _ hm
        · simp only [hp, if_neg hp]
          exact hm
  have houter : ∀ (qs : List Pattern) (m : List (CellId × Nat)),
      (m.map Prod.fst).Nodup →
        ((qs.foldl
          (fun m2 p =>
            p.cellIds.foldl
              (fun m3 cellId =>
                match alookup hits cellId with
                | some h => if h > 0 then bumpCount m3 cellId else m3
                | none => m3)
              m2)
          m).map Prod.fst).Nodup := by
    intro qs
    induction qs with
    | nil => intro m hm; exact hm
    | cons p rest ih =>
      intro m hm
      rw [List.foldl_cons]
      exact ih _ (hstep p.cellIds m hm)
  exact houter ps [] (by simp)

theorem alookup_eq_none_of_not_mem {β : Type} (m : List (CellId × β))
    (k : CellId) (h : k ∉ m.map Prod.fst) : alookup m k = none := by
  induction m with
  | nil => rfl
  | cons e rest ih =>
    have h1 : ¬ e.1 = k := by
      intro hh
      exact h (by simp [hh])
    have h2 : k ∉ rest.map Prod.fst := by
      intro hh
      exact h (by simp [hh])
    simp only [alookup, if_neg h1]
    exact ih h2

theorem key_mem_of_alookup_eq_some {β : Type} (m : List (CellId × β))
    (k : CellId) (v : β) (h : alookup m k = some v) : k ∈ m.map Prod.fst := by
  by_contra hn
  rw [alookup_eq_none_of_not_mem m k hn] at h
  cases h

theorem applyHitDecrements_lookup (counts : List (CellId × Nat))
    (hits : HitsMap) (remaining : Int) (x : CellId)
    (hnd : (counts.map Prod.fst).Nodup) :
    alookup (applyHitDecrements counts hits remaining).1 x =
      match alookup counts x with
      | some k =>
        if 0 < (alookup hits x).getD 0 then
          some (max 0 ((alookup hits x).getD 0 - (k : Int)))
        else alookup hits x
      | none => alookup hits x := by
  induction counts generalizing hits remaining with
  | nil => simp [applyHitDecrements, alookup]
  | cons e rest ih =>
    have hnd2 : (rest.map Prod.fst).Nodup := by
      simp only [List.map_cons, List.nodup_cons] at hnd
      exact hnd.2
    have hek : e.1 ∉ rest.map Prod.fst := by
      simp only [List.map_cons, List.nodup_cons] at hnd
      exact hnd.1
    have hrest : alookup rest e.1 = none :=
      alookup_eq_none_of_not_mem rest e.1 hek
    have hstep : applyHitDecrements (e :: rest) hits remaining =
        applyHitDecrements rest
          (if (alookup hits e.1).getD 0 ≤ 0 then hits
           else aset hits e.1 (max 0 ((alookup hits e.1).getD 0 - (e.2 : Int))))
          (if (alookup hits e.1).getD 0 ≤ 0 then remaining
           else remaining -
            ((alookup hits e.1).getD 0 -
              max 0 ((alookup hits e.1).getD 0 - (e.2 : Int)))) := by
      unfold applyHitDecrements
      rw [List.foldl_cons]
      by_cases hb : (alookup hits e.1).getD 0 ≤ 0
      · simp [hb]
      · simp [hb]
    rw [hstep]
    by_cases hb : (alookup hits e.1).getD 0 ≤ 0
    · rw [if_pos hb, if_pos hb]
      rw [ih _ _ hnd2]
      by_cases hx : x = e.1
      · subst hx
        rw [hrest]
        have hcons : alookup ((e :: rest) : List (CellId × Nat)) e.1 =
            some e.2 := by
          simp [alookup]
        rw [hcons]
        have hnp : ¬ 0 < (alookup hits e.1).getD 0 := by omega
        simp [hnp]
      · have hcons : alookup ((e :: rest) : List (CellId × Nat)) x =
            alookup rest x := by
          have hne : ¬ e.1 = x := fun hh => hx hh.symm
          simp [alookup, if_neg hne]
        rw [hcons]
    · rw [if_neg hb, if_neg hb]
      rw [ih _ _ hnd2]
      by_cases hx : x = e.1
      · subst hx
        rw [hrest]
        have hcons : alookup ((e :: rest) : List (CellId × Nat)) e.1 =
            some e.2 := by
          simp [alookup]
        rw [hcons]
        have hset : alookup (aset hits e.1
            (max 0 ((alookup hits e.1).getD 0 - (e.2 : Int)))) e.1 =
            some (max 0 ((alookup hits e.1).getD 0 - (e.2 : Int))) := by
          rw [alookup_aset]
          simp
        rw [hset]
        have hp : 0 < (alookup hits e.1).getD 0 := by omega
        simp [hp]
      · have hcons : alookup ((e :: rest) : List (CellId × Nat)) x =
            alookup rest x := by
          have hne : ¬ e.1 = x := fun hh => hx hh.symm
          simp [alookup, if_neg hne]
        rw [hcons]
        have hset : alookup (aset hits e.1
            (max 0 ((alookup hits e.1).getD 0 - (e.2 : Int)))) x =
            alookup hits x := by
          rw [alookup_aset]
          simp [hx]
        rw [hset]

theorem dailyResolve_hits_lookup (cps : List Pattern) (hits : HitsMap)
    (total rem : Int) (compl : Bool) (x : CellId) (h0 : Int)
    (hnd : ∀ p ∈ cps, p.cellIds.Nodup) (hcl : 0 < cps.length)
    (hx : alookup hits x = some h0) (hp : 0 < h0) :
    alookup (dailyResolve cps hits total rem compl).1 x =
      some (max 0
        (h0 - ((cps.filter (fun p => decide (x ∈ p.cellIds))).length : Int))) := by
  have hmem : x ∈ hits.map Prod.fst := key_mem_of_alookup_eq_some _ _ _ hx
  have hne : 0 < hits.length := by
    rcases hits with _ | ⟨e, rest⟩
    · simp at hmem
    · simp
  have hgd : (alookup hits x).getD 0 = h0 := by simp [hx]
  unfold dailyResolve
  rw [if_pos ⟨hcl, hne⟩]
  have hclk := perCellHitCounts_lookup cps hits x hnd
  by_cases hcc : 0 < (perCellHitCounts cps hits).length
  · rw [if_pos hcc]
    have hdec := applyHitDecrements_lookup (perCellHitCounts cps hits) hits rem
      x (perCellHitCounts_keys_nodup cps hits)
    by_cases hflt : 0 < (cps.filter (fun p => decide (x ∈ p.cellIds))).length
    · rw [if_pos ⟨by omega, hflt⟩] at hclk
      rw [hclk] at hdec
      simp only [hgd, if_pos hp] at hdec
      by_cases hclamp : (applyHitDecrements (perCellHitCounts cps hits) hits
          rem).2 ≤ 0 ∧ 0 < total
      · rw [if_pos hclamp]
        exact hdec
      · rw [if_neg hclamp]
        exact hdec
    · rw [if_neg (fun hh => hflt hh.2)] at hclk
      rw [hclk] at hdec
      have hz : (cps.filter (fun p => decide (x ∈ p.cellIds))).length = 0 := by
        omega
      rw [hz]
      have hmax : max 0 (h0 - ((0 : Nat) : Int)) = h0 := by omega
      rw [hmax]
      by_cases hclamp : (applyHitDecrements (perCellHitCounts cps hits) hits
          rem).2 ≤ 0 ∧ 0 < total
      · rw [if_pos hclamp]
        rw [hdec, hx]
      · rw [if_neg hclamp]
        rw [hdec, hx]
  · rw [if_neg hcc]
    have hcnil : perCellHitCounts cps hits = [] := by
      rcases hh : perCellHitCounts cps hits with _ | ⟨e, r⟩
      · rfl
      · exfalso
        apply hcc
        rw [hh]
        simp
    have hflt : (cps.filter (fun p => decide (x ∈ p.cellIds))).length = 0 := by
      by_contra hnz
      have : 0 < (cps.filter (fun p => decide (x ∈ p.cellIds))).length := by
        omega
      rw [if_pos ⟨by omega, this⟩] at hclk
      rw [hcnil] at hclk
      simp [alookup] at hclk
    rw [hflt]
    have hmax : max 0 (h0 - ((0 : Nat) : Int)) = h0 := by omega
    rw [hmax, hx]

theorem spawnLoop_preserves_filled (forbidden : List String)
    (cells : List Cell) (board : BoardState) (x : CellId)
    (h : alookup board x = some CellState.filled) :
    alookup (spawnLoop forbidden cells board).1 x = some CellState.filled := by
  induction cells generalizing board with
  | nil => exact h
  | cons cell rest ih =>
    show alookup
      (if inForbiddenFlower forbidden cell.id then
        spawnLoop forbidden rest board
      else if alookup board cell.id = some CellState.filled then
        (board, some cell.id)
      else
        (let b2 := aset board cell.id CellState.filled
        if (findClears b2).clearedPatterns.length = 0 then (b2, some cell.id)
        else spawnLoop forbidden rest (aset b2 cell.id CellState.empty))).1 x =
      some CellState.filled
    by_cases hforb : inForbiddenFlower forbidden cell.id
    · rw [if_pos hforb]
      exact ih board h
    · rw [if_neg hforb]
      by_cases hfil : alookup board cell.id = some CellState.filled
      · rw [if_pos hfil]
        exact h
      · rw [if_neg hfil]
        have hxne : ¬ x = cell.id := by
          intro hh
          rw [hh] at h
          exact hfil h
        by_cases hcl : (findClears (aset board cell.id
            CellState.filled)).clearedPatterns.length = 0
        · simp only [hcl, if_true, if_pos hcl]
          rw [alookup_aset]
          simp [hxne, h]
        · simp only [hcl, if_neg hcl]
          apply ih
          rw [alookup_aset]
          simp only [hxne, if_neg hxne]
          rw [alookup_aset]
          simp [hxne, h]

theorem spawnGoldenCell_preserves_filled (board : BoardState)
    (forbidden : List String) (shuffled : List Cell) (x : CellId)
    (h : alookup board x = some CellState.filled) :
    alookup (spawnGoldenCell board forbidden shuffled).1 x =
      some CellState.filled := by
  unfold spawnGoldenCell
  rcases hsp : spawnLoop forbidden shuffled board with ⟨b2, oid⟩
  have := spawnLoop_preserves_filled forbidden shuffled board x h
  rw [hsp] at this
  rcases oid with _ | id
  · exact this
  · exact this

theorem any_pos_of_alookup_pos (m : HitsMap) (x : CellId) (v : Int)
    (h : alookup m x = some v) (hv : 0 < v) :
    (m.any (fun e => decide (e.1 = x) && decide (e.2 > 0))) = true := by
  induction m with
  | nil => cases h
  | cons e rest ih =>
    by_cases he : e.1 = x
    · simp only [alookup, if_pos he] at h
      injection h with h2
      simp [List.any_cons, he]
      left
      omega
    · simp only [alookup, if_neg he] at h
      simp [List.any_cons, ih h]

theorem refill_filled_of_pos (board : BoardState) (hits : HitsMap)
    (x : CellId) (v : Int) (h : alookup hits x = some v) (hv : 0 < v) :
    alookup (refillDaily board hits) x = some CellState.filled := by
  rw [alookup_refillDaily]
  rw [any_pos_of_alookup_pos hits x v h hv]
  simp

set_option maxRecDepth 1000000 in
theorem board_patterns_cellIds_nodup :
    ∀ p ∈ BOARD_DEFINITION.patterns, p.cellIds.Nodup := by
  decide

theorem applyPlacementCore_noclears_eq (current : GameState)
    (piece : ActivePiece) (originCellId : CellId) (targets : List CellId)
    (hcp : canPlacePiece current.board piece.shape originCellId = some targets)
    (hz : (findClears (fillCells current.board targets)).clearedPatterns.length
      = 0) :
    applyPlacementCore current piece originCellId =
      some
        ⟨fillCells current.board targets, [], [], targets,
          (dailyResolve
            (findClears (fillCells current.board targets)).clearedPatterns
            current.dailyHits current.dailyTotalHits
            current.dailyRemainingHits current.dailyCompleted).1,
          (dailyResolve
            (findClears (fillCells current.board targets)).clearedPatterns
            current.dailyHits current.dailyTotalHits
            current.dailyRemainingHits current.dailyCompleted).2.1,
          (dailyResolve
            (findClears (fillCells current.board targets)).clearedPatterns
            current.dailyHits current.dailyTotalHits
            current.dailyRemainingHits current.dailyCompleted).2.2,
          false⟩ := by
  unfold applyPlacementCore
  rw [hcp]
  simp [hz]

theorem applyPlacementCore_clears_eq (current : GameState)
    (piece : ActivePiece) (originCellId : CellId) (targets : List CellId)
    (hcp : canPlacePiece current.board piece.shape originCellId = some targets)
    (hn : ¬ (findClears
      (fillCells current.board targets)).clearedPatterns.length = 0) :
    applyPlacementCore current piece originCellId =
      some
        ⟨refillDaily
            (clearCells (fillCells current.board targets)
              (findClears (fillCells current.board targets)).clearedCellIds)
            (dailyResolve
              (findClears (fillCells current.board targets)).clearedPatterns
              current.dailyHits current.dailyTotalHits
              current.dailyRemainingHits current.dailyCompleted).1,
          (findClears (fillCells current.board targets)).clearedPatterns,
          (findClears (fillCells current.board targets)).clearedCellIds,
          targets,
          (dailyResolve
            (findClears (fillCells current.board targets)).clearedPatterns
            current.dailyHits current.dailyTotalHits
            current.dailyRemainingHits current.dailyCompleted).1,
          (dailyResolve
            (findClears (fillCells current.board targets)).clearedPatterns
            current.dailyHits current.dailyTotalHits
            current.dailyRemainingHits current.dailyCompleted).2.1,
          (dailyResolve
            (findClears (fillCells current.board targets)).clearedPatterns
            current.dailyHits current.dailyTotalHits
            current.dailyRemainingHits current.dailyCompleted).2.2,
          match current.goldenCellId with
          | some g =>
            decide (current.mode = GameMode.endless) &&
              (findClears (fillCells current.board targets)).clearedCellIds.any
                (fun c => decide (c = g))
          | none => false⟩ := by
  unfold applyPlacementCore
  rw [hcp]
  simp [hn]

set_option maxRecDepth 1000000 in
/-- C5: in a placement that clears at least one pattern, every numbered
cell with a positive remaining hit count is decremented by exactly the
number of distinct clearing patterns it belongs to, clamped at zero;
every daily cell whose count is still positive is filled on the returned
board; the total hit budget is unchanged; and, from a not-yet-completed
state with hits remaining, `dailyCompleted` becomes true exactly when
the remaining-hit total reaches zero while `dailyTotalHits` was
positive. -/
theorem C5_daily_hits_spec (shuffledCells : List Cell) (current : GameState)
    (piece : ActivePiece) (originCellId : CellId) (res : PlacementResult)
    (h : applyPlacement shuffledCells current piece originCellId = some res)
    (hclears : 1 ≤ res.clearedPatterns.length) :
    (∀ c h0, alookup current.dailyHits c = some h0 → 0 < h0 →
      alookup res.dailyHits c =
        some (max 0 (h0 - ((res.clearedPatterns.filter
          (fun p => decide (c ∈ p.cellIds))).length : Int)))) ∧
    (∀ c hv, alookup res.dailyHits c = some hv → 0 < hv →
      alookup res.board c = some CellState.filled) ∧
    res.dailyTotalHits = current.dailyTotalHits ∧
    (current.dailyCompleted = false → 0 < current.dailyRemainingHits →
      (res.dailyCompleted = true ↔
        res.dailyRemainingHits = 0 ∧ 0 < current.dailyTotalHits)) := by
  rcases hcore : applyPlacementCore current piece originCellId with _ | core
  · exfalso
    unfold applyPlacement at h
    rw [hcore] at h
    cases h
  · by_cases hz : core.clearedPatterns.length = 0
    · exfalso
      have happ := applyPlacement_noclears_eq shuffledCells current piece
        originCellId core hcore hz
      rw [happ] at h
      injection h with h2
      rw [← h2] at hclears
      simp at hclears
    · have happ := applyPlacement_clears_eq shuffledCells current piece
        originCellId core hcore hz
      rw [happ] at h
      injection h with h2
      subst h2
      rcases hcp : canPlacePiece current.board piece.shape originCellId
        with _ | targets
      · exfalso
        unfold applyPlacementCore at hcore
        rw [hcp] at hcore
        cases hcore
      · by_cases hsz : (findClears
            (fillCells current.board targets)).clearedPatterns.length = 0
        · exfalso
          have hnc := applyPlacementCore_noclears_eq current piece
            originCellId targets hcp hsz
          rw [hcore] at hnc
          injection hnc with hnc
          exact hz (by rw [hnc]; rfl)
        · have hceq := applyPlacementCore_clears_eq current piece
            originCellId targets hcp hsz
          rw [hcore] at hceq
          injection hceq with hceq
          subst hceq
          have hnd : ∀ p ∈ (findClears
              (fillCells current.board targets)).clearedPatterns,
              p.cellIds.Nodup := by
            intro p hp
            exact board_patterns_cellIds_nodup p
              ((mem_findClears_patterns _ p).mp hp).1
          refine ⟨?_, ?_, rfl, ?_⟩
          · intro c h0 hc hpos
            exact dailyResolve_hits_lookup _ current.dailyHits
              current.dailyTotalHits current.dailyRemainingHits
              current.dailyCompleted c h0 hnd (by omega) hc hpos
          · intro c hv hc hvpos
            show alookup
              (if decide (current.mode = GameMode.endless) && _ then _ else _)
              c = some CellState.filled
            have hfill : alookup (refillDaily
                (clearCells (fillCells current.board targets)
                  (findClears
                    (fillCells current.board targets)).clearedCellIds)
                (dailyResolve
                  (findClears
                    (fillCells current.board targets)).clearedPatterns
                  current.dailyHits current.dailyTotalHits
                  current.dailyRemainingHits current.dailyCompleted).1) c =
                some CellState.filled :=
              refill_filled_of_pos _ _ c hv hc hvpos
            by_cases hg : (decide (current.mode = GameMode.endless) &&
                (match current.goldenCellId with
                 | some g =>
                   decide (current.mode = GameMode.endless) &&
                     (findClears
                       (fillCells current.board targets)).clearedCellIds.any
                       (fun c2 => decide (c2 = g))
                 | none => false)) = true
            · rw [if_pos hg]
              exact spawnGoldenCell_preserves_filled _ _ _ c hfill
            · rw [if_neg hg]
              exact hfill
          · intro hcomp hrem
            show (dailyResolve _ _ _ _ _).2.2 = true ↔
              (dailyResolve _ _ _ _ _).2.1 = 0 ∧ 0 < current.dailyTotalHits
            unfold dailyResolve
            by_cases hA : 0 < (findClears
                (fillCells current.board targets)).clearedPatterns.length ∧
                0 < current.dailyHits.length
            · rw [if_pos hA]
              by_cases hB : 0 < (perCellHitCounts
                  (findClears
                    (fillCells current.board targets)).clearedPatterns
                  current.dailyHits).length
              · rw [if_pos hB]
                by_cases hC : (applyHitDecrements
                    (perCellHitCounts
                      (findClears
                        (fillCells current.board targets)).clearedPatterns
                      current.dailyHits)
                    current.dailyHits current.dailyRemainingHits).2 ≤ 0 ∧
                    0 < current.dailyTotalHits
                · rw [if_pos hC]
                  simp [hC.2]
                · rw [if_neg hC]
                  simp only [hcomp]
                  constructor
                  · intro hfalse
                    cases hfalse
                  · rintro ⟨hzero, htot⟩
                    exact absurd ⟨by omega, htot⟩ hC
              · rw [if_neg hB]
                simp only [hcomp]
                constructor
                · intro hfalse
                  cases hfalse
                · rintro ⟨hzero, _⟩
                  omega
            · rw [if_neg hA]
              simp only [hcomp]
              constructor
              · intro hfalse
                cases hfalse
              · rintro ⟨hzero, _⟩
                omega

set_option maxRecDepth 2000000 in
/-- Witness for C5: a petal with 3 hits sits in the central flower; the
flower clears once, so the cell drops to 2 hits, stays filled on the
returned board, and the puzzle is not completed. -/
theorem C5_witness :
    alookup dailyHitCore.dailyHits ⟨1, 0⟩ = some 2 ∧
    alookup dailyHitCore.board ⟨1, 0⟩ = some CellState.filled ∧
    dailyHitCore.dailyCompleted = false ∧
    dailyHitCore.dailyRemainingHits = 2 := by
  have hcore : applyPlacementCore dailyHitState singleCellPiece ⟨0, 0⟩ =
      some dailyHitCore := by decide
  have hn : ¬ dailyHitCore.clearedPatterns.length = 0 := by decide
  have happ := applyPlacement_clears_eq BOARD_DEFINITION.cells dailyHitState
    singleCellPiece ⟨0, 0⟩ dailyHitCore hcore hn
  obtain ⟨hdec, hfill, htot, hcompl⟩ :=
    C5_daily_hits_spec BOARD_DEFINITION.cells dailyHitState singleCellPiece
      ⟨0, 0⟩ _ happ (by decide)
  have h1 : alookup dailyHitCore.dailyHits ⟨1, 0⟩ =
      some (max 0 (3 - ((dailyHitCore.clearedPatterns.filter
        (fun p => decide ((⟨1, 0⟩ : CellId) ∈ p.cellIds))).length : Int))) :=
    hdec ⟨1, 0⟩ 3 (by decide) (by decide)
  have hflt : ((dailyHitCore.clearedPatterns.filter
      (fun p => decide ((⟨1, 0⟩ : CellId) ∈ p.cellIds))).length) = 1 := by
    decide
  have h1b : alookup dailyHitCore.dailyHits ⟨1, 0⟩ = some 2 := by
    rw [h1, hflt]
    norm_num
  have h2 : alookup
      (if (decide (dailyHitState.mode = GameMode.endless) &&
          dailyHitCore.goldenCleared) = true then
        (spawnGoldenCell dailyHitCore.board
          (forbiddenForRespawn dailyHitState.goldenCellId)
          BOARD_DEFINITION.cells).1
      else dailyHitCore.board) ⟨1, 0⟩ = some CellState.filled :=
    hfill ⟨1, 0⟩ 2 h1b (by decide)
  have hgfalse : (decide (dailyHitState.mode = GameMode.endless) &&
      dailyHitCore.goldenCleared) = false := by decide
  rw [hgfalse] at h2
  simp only [Bool.false_eq_true, if_false] at h2
  exact ⟨h1b, h2, by decide, by decide⟩

/-! ### Sum bookkeeping for the remaining-hit invariant -/

theorem hitsSum_aset (m : HitsMap) (k : CellId) (v v0 : Int)
    (h : alookup m k = some v0) :
    hitsSum (aset m k v) = hitsSum m - v0 + v := by
  induction m with
  | nil => cases h
  | cons e rest ih =>
    by_cases he : e.1 = k
    · simp only [alookup, if_pos he] at h
      injection h with h2
      simp only [aset, if_pos he, hitsSum, List.map_cons, List.sum_cons]
      rw [h2]
      ring
    · simp only [alookup, if_neg he] at h
      simp only [aset, if_neg he, hitsSum, List.map_cons, List.sum_cons]
      have := ih h
      simp only [hitsSum] at this
      rw [this]
      ring

theorem applyHitDecrements_sum (counts : List (CellId × Nat)) (hits : HitsMap)
    (remaining : Int) :
    (applyHitDecrements counts hits remaining).2 -
      hitsSum (applyHitDecrements counts hits remaining).1 =
      remaining - hitsSum hits := by
  induction counts generalizing hits remaining with
  | nil => simp [applyHitDecrements]
  | cons e rest ih =>
    have hstep : applyHitDecrements (e :: rest) hits remaining =
        applyHitDecrements rest
          (if (alookup hits e.1).getD 0 ≤ 0 then hits
           else aset hits e.1 (max 0 ((alookup hits e.1).getD 0 - (e.2 : Int))))
          (if (alookup hits e.1).getD 0 ≤ 0 then remaining
           else remaining -
            ((alookup hits e.1).getD 0 -
              max 0 ((alookup hits e.1).getD 0 - (e.2 : Int)))) := by
      unfold applyHitDecrements
      rw [List.foldl_cons]
      by_cases hb : (alookup hits e.1).getD 0 ≤ 0
      · simp [hb]
      · simp [hb]
    rw [hstep]
    by_cases hb : (alookup hits e.1).getD 0 ≤ 0
    · rw [if_pos hb, if_pos hb, ih]
    · rw [if_neg hb, if_neg hb, ih]
      have hsome : alookup hits e.1 = some ((alookup hits e.1).getD 0) := by
        rcases hl : alookup hits e.1 with _ | v
        · rw [hl] at hb
          simp at hb
        · simp [hl]
      rw [hitsSum_aset hits e.1 _ _ hsome]
      ring

theorem mem_aset {β : Type} (m : List (CellId × β)) (k : CellId) (v : β)
    (x : CellId × β) (hx : x ∈ aset m k v) : x ∈ m ∨ x = (k, v) := by
  induction m with
  | nil =>
    simp [aset] at hx
    simp [hx]
  | cons e rest ih =>
    by_cases he : e.1 = k
    · simp only [aset, if_pos he] at hx
      rcases List.mem_cons.mp hx with h2 | h2
      · simp [h2]
      · exact Or.inl (List.mem_cons_of_mem _ h2)
    · simp only [aset, if_neg he] at hx
      rcases List.mem_cons.mp hx with h2 | h2
      · exact Or.inl (h2 ▸ List.mem_cons_self _ _)
      · rcases ih h2 with h3 | h3
        · exact Or.inl (List.mem_cons_of_mem _ h3)
        · exact Or.inr h3

theorem applyHitDecrements_nonneg (counts : List (CellId × Nat))
    (hits : HitsMap) (remaining : Int)
    (hnn : ∀ e ∈ hits, 0 ≤ e.2) :
    ∀ e ∈ (applyHitDecrements counts hits remaining).1, 0 ≤ e.2 := by
  induction counts generalizing hits remaining with
  | nil => exact hnn
  | cons e rest ih =>
    have hstep : applyHitDecrements (e :: rest) hits remaining =
        applyHitDecrements rest
          (if (alookup hits e.1).getD 0 ≤ 0 then hits
           else aset hits e.1 (max 0 ((alookup hits e.1).getD 0 - (e.2 : Int))))
          (if (alookup hits e.1).getD 0 ≤ 0 then remaining
           else remaining -
            ((alookup hits e.1).getD 0 -
              max 0 ((alookup hits e.1).getD 0 - (e.2 : Int)))) := by
      unfold applyHitDecrements
      rw [List.foldl_cons]
      by_cases hb : (alookup hits e.1).getD 0 ≤ 0
      · simp [hb]
      · simp [hb]
    rw [hstep]
    by_cases hb : (alookup hits e.1).getD 0 ≤ 0
    · rw [if_pos hb, if_pos hb]
      exact ih hits remaining hnn
    · rw [if_neg hb, if_neg hb]
      apply ih
      intro x hx
      rcases mem_aset _ _ _ _ hx with h2 | h2
      · exact hnn x h2
      · rw [h2]
        simp only []
        omega

theorem hitsSum_nonneg (m : HitsMap) (hnn : ∀ e ∈ m, 0 ≤ e.2) :
    0 ≤ hitsSum m := by
  induction m with
  | nil => simp [hitsSum]
  | cons e rest ih =>
    simp only [hitsSum, List.map_cons, List.sum_cons]
    have h1 := hnn e (List.mem_cons_self _ _)
    have h2 : 0 ≤ hitsSum rest :=
      ih (fun x hx => hnn x (List.mem_cons_of_mem _ hx))
    simp only [hitsSum] at h2
    omega

theorem dailyResolve_sum (cps : List Pattern) (hits : HitsMap)
    (total rem : Int) (compl : Bool)
    (hinv : rem = hitsSum hits) (hnn : ∀ e ∈ hits, 0 ≤ e.2) :
    (dailyResolve cps hits total rem compl).2.1 =
      hitsSum (dailyResolve cps hits total rem compl).1 := by
  unfold dailyResolve
  by_cases hA : 0 < cps.length ∧ 0 < hits.length
  · rw [if_pos hA]
    by_cases hB : 0 < (perCellHitCounts cps hits).length
    · rw [if_pos hB]
      have hsum := applyHitDecrements_sum (perCellHitCounts cps hits) hits rem
      by_cases hC : (applyHitDecrements (perCellHitCounts cps hits) hits
          rem).2 ≤ 0 ∧ 0 < total
      · rw [if_pos hC]
        have hnn2 := applyHitDecrements_nonneg (perCellHitCounts cps hits)
          hits rem hnn
        have hge := hitsSum_nonneg _ hnn2
        simp only []
        omega
      · rw [if_neg hC]
        simp only []
        omega
    · rw [if_neg hB]
      exact hinv
  · rw [if_neg hA]
    exact hinv

set_option maxRecDepth 2000000 in
/-- C10 counterexample: a state whose hit map holds a negative entry
still satisfies `dailyRemainingHits = sum of dailyHits` (both are -2),
but one clear drives the remaining total to -3, the completion clamp
resets it to 0, and the sum of the returned map is -3. -/
theorem C10_counterexample :
    negativeHitState.dailyRemainingHits = hitsSum negativeHitState.dailyHits ∧
    (applyPlacement BOARD_DEFINITION.cells negativeHitState singleCellPiece
        ⟨0, 0⟩).map
      (fun r => (r.dailyRemainingHits, hitsSum r.dailyHits)) =
      some (0, -3) ∧
    (0 : Int) ≠ -3 := by
  refine ⟨by decide, ?_, by decide⟩
  decide

set_option maxRecDepth 2000000 in
/-- C10 amended: `applyPlacement` preserves the invariant that
`dailyRemainingHits` equals the sum of the values of `dailyHits`, for
every input state satisfying it whose hit values are all nonnegative (as
holds for every state `createDailyGameState` or the endless initializer
produces). -/
theorem C10_remaining_sum_invariant (shuffledCells : List Cell)
    (current : GameState) (piece : ActivePiece) (originCellId : CellId)
    (res : PlacementResult)
    (h : applyPlacement shuffledCells current piece originCellId = some res)
    (hinv : current.dailyRemainingHits = hitsSum current.dailyHits)
    (hnn : ∀ e ∈ current.dailyHits, 0 ≤ e.2) :
    res.dailyRemainingHits = hitsSum res.dailyHits := by
  rcases hcore : applyPlacementCore current piece originCellId with _ | core
  · exfalso
    unfold applyPlacement at h
    rw [hcore] at h
    cases h
  · rcases hcp : canPlacePiece current.board piece.shape originCellId
      with _ | targets
    · exfalso
      unfold applyPlacementCore at hcore
      rw [hcp] at hcore
      cases hcore
    · have hsum : core.dailyRemainingHits = hitsSum core.dailyHits := by
        by_cases hsz : (findClears
            (fillCells current.board targets)).clearedPatterns.length = 0
        · have hnc := applyPlacementCore_noclears_eq current piece
            originCellId targets hcp hsz
          rw [hcore] at hnc
          injection hnc with hnc
          rw [hnc]
          exact dailyResolve_sum _ _ _ _ _ hinv hnn
        · have hceq := applyPlacementCore_clears_eq current piece
            originCellId targets hcp hsz
          rw [hcore] at hceq
          injection hceq with hceq
          rw [hceq]
          exact dailyResolve_sum _ _ _ _ _ hinv hnn
      by_cases hz : core.clearedPatterns.length = 0
      · have happ := applyPlacement_noclears_eq shuffledCells current piece
          originCellId core hcore hz
        rw [happ] at h
        injection h with h2
        subst h2
        exact hsum
      · have happ := applyPlacement_clears_eq shuffledCells current piece
          originCellId core hcore hz
        rw [happ] at h
        injection h with h2
        subst h2
        exact hsum

set_option maxRecDepth 2000000 in
/-- Witness for C10: the numbered-petal state keeps the invariant after
a clear (remaining 2 = sum of the returned hit map). -/
theorem C10_witness :
    (applyPlacement BOARD_DEFINITION.cells dailyHitState singleCellPiece
        ⟨0, 0⟩).map
      (fun r => decide (r.dailyRemainingHits = hitsSum r.dailyHits)) =
      some true := by
  have hcore : applyPlacementCore dailyHitState singleCellPiece ⟨0, 0⟩ =
      some dailyHitCore := by decide
  have hn : ¬ dailyHitCore.clearedPatterns.length = 0 := by decide
  have happ := applyPlacement_clears_eq BOARD_DEFINITION.cells dailyHitState
    singleCellPiece ⟨0, 0⟩ dailyHitCore hcore hn
  have h := C10_remaining_sum_invariant BOARD_DEFINITION.cells dailyHitState
    singleCellPiece ⟨0, 0⟩ _ happ (by decide) (by decide)
  rw [happ]
  simp only [Option.map_some']
  refine congrArg some ?_
  simpa using h

/-! ### Lemmas for residual-clear freedom -/

theorem patternFilled_iff (b : BoardState) (p : Pattern) :
    patternFilled b p = true ↔
      ∀ c ∈ p.cellIds, alookup b c = some CellState.filled := by
  unfold patternFilled
  rw [List.all_eq_true]
  constructor
  · intro h c hc
    have := h c hc
    simpa using this
  · intro h c hc
    simp [h c hc]

theorem findClears_eq_nil_iff (b : BoardState) :
    (findClears b).clearedPatterns = [] ↔
      ∀ p ∈ BOARD_DEFINITION.patterns, isScoringId p.id = true →
        patternFilled b p = false := by
  rw [findClears_patterns, List.filter_eq_nil_iff]
  constructor
  · intro h p hp hsc
    have := h p hp
    simp only [Bool.and_eq_true, not_and] at this
    cases hb : patternFilled b p
    · rfl
    · exact absurd hb (this hsc)
  · intro h p hp
    simp only [Bool.and_eq_true, not_and]
    intro hsc
    rw [h p hp hsc]
    simp

theorem any_imp_key_mem (m : HitsMap) (c : CellId)
    (h : (m.any (fun e => decide (e.1 = c) && decide (e.2 > 0))) = true) :
    c ∈ m.map Prod.fst := by
  rw [List.any_eq_true] at h
  obtain ⟨x, hx, hpx⟩ := h
  rw [Bool.and_eq_true, decide_eq_true_eq, decide_eq_true_eq] at hpx
  exact List.mem_map.mpr ⟨x, hx, hpx.1⟩

theorem any_imp_alookup_pos (m : HitsMap) (c : CellId)
    (hnd : (m.map Prod.fst).Nodup)
    (h : (m.any (fun e => decide (e.1 = c) && decide (e.2 > 0))) = true) :
    0 < (alookup m c).getD 0 := by
  induction m with
  | nil => simp at h
  | cons e rest ih =>
    have hnd2 : (rest.map Prod.fst).Nodup := by
      simp only [List.map_cons, List.nodup_cons] at hnd
      exact hnd.2
    have hem : e.1 ∉ rest.map Prod.fst := by
      simp only [List.map_cons, List.nodup_cons] at hnd
      exact hnd.1
    rw [List.any_cons, Bool.or_eq_true] at h
    rcases h with h1 | h2
    · rw [Bool.and_eq_true, decide_eq_true_eq, decide_eq_true_eq] at h1
      simp [alookup, h1.1, h1.2]
    · have hcm : c ∈ rest.map Prod.fst := any_imp_key_mem rest c h2
      have hne : ¬ e.1 = c := fun hh => hem (hh ▸ hcm)
      simp only [alookup, if_neg hne]
      exact ih hnd2 h2

theorem applyHitDecrements_keys_nodup (counts : List (CellId × Nat))
    (hits : HitsMap) (remaining : Int)
    (hnd : (hits.map Prod.fst).Nodup) :
    (((applyHitDecrements counts hits remaining).1).map Prod.fst).Nodup := by
  induction counts generalizing hits remaining with
  | nil => exact hnd
  | cons e rest ih =>
    have hstep : applyHitDecrements (e :: rest) hits remaining =
        applyHitDecrements rest
          (if (alookup hits e.1).getD 0 ≤ 0 then hits
           else aset hits e.1 (max 0 ((alookup hits e.1).getD 0 - (e.2 : Int))))
          (if (alookup hits e.1).getD 0 ≤ 0 then remaining
           else remaining -
            ((alookup hits e.1).getD 0 -
              max 0 ((alookup hits e.1).getD 0 - (e.2 : Int)))) := by
      unfold applyHitDecrements
      rw [List.foldl_cons]
      by_cases hb : (alookup hits e.1).getD 0 ≤ 0
      · simp [hb]
      · simp [hb]
    rw [hstep]
    by_cases hb : (alookup hits e.1).getD 0 ≤ 0
    · rw [if_pos hb, if_pos hb]
      exact ih hits remaining hnd
    · rw [if_neg hb, if_neg hb]
      exact ih _ _ (aset_keys_nodup _ _ _ hnd)

theorem dailyResolve_keys_nodup (cps : List Pattern) (hits : HitsMap)
    (total rem : Int) (compl : Bool) (hnd : (hits.map Prod.fst).Nodup) :
    (((dailyResolve cps hits total rem compl).1).map Prod.fst).Nodup := by
  unfold dailyResolve
  by_cases hA : 0 < cps.length ∧ 0 < hits.length
  · rw [if_pos hA]
    by_cases hB : 0 < (perCellHitCounts cps hits).length
    · rw [if_pos hB]
      by_cases hC : (applyHitDecrements (perCellHitCounts cps hits) hits
          rem).2 ≤ 0 ∧ 0 < total
      · rw [if_pos hC]
        exact applyHitDecrements_keys_nodup _ _ _ hnd
      · rw [if_neg hC]
        exact applyHitDecrements_keys_nodup _ _ _ hnd
    · rw [if_neg hB]
      exact hnd
  · rw [if_neg hA]
    exact hnd

theorem dailyResolve_getD_le (cps : List Pattern) (hits : HitsMap)
    (total rem : Int) (compl : Bool) (x : CellId) :
    (alookup (dailyResolve cps hits total rem compl).1 x).getD 0 ≤
      (alookup hits x).getD 0 := by
  unfold dailyResolve
  by_cases hA : 0 < cps.length ∧ 0 < hits.length
  · rw [if_pos hA]
    by_cases hB : 0 < (perCellHitCounts cps hits).length
    · rw [if_pos hB]
      have hdec := applyHitDecrements_lookup (perCellHitCounts cps hits) hits
        rem x (perCellHitCounts_keys_nodup cps hits)
      have hle : (alookup (applyHitDecrements (perCellHitCounts cps hits)
          hits rem).1 x).getD 0 ≤ (alookup hits x).getD 0 := by
        rw [hdec]
        rcases hk : alookup (perCellHitCounts cps hits) x with _ | k
        · simp
        · show ((if 0 < (alookup hits x).getD 0 then
              some (max 0 ((alookup hits x).getD 0 - (k : Int)))
            else alookup hits x)).getD 0 ≤ (alookup hits x).getD 0
          by_cases hp : 0 < (alookup hits x).getD 0
          · rw [if_pos hp]
            simp only [Option.getD_some]
            omega
          · rw [if_neg hp]
      by_cases hC : (applyHitDecrements (perCellHitCounts cps hits) hits
          rem).2 ≤ 0 ∧ 0 < total
      · rw [if_pos hC]
        exact hle
      · rw [if_neg hC]
        exact hle
    · rw [if_neg hB]
  · rw [if_neg hA]

theorem mem_of_alookup_eq_some {β : Type} (m : List (CellId × β))
    (k : CellId) (v : β) (h : alookup m k = some v) : (k, v) ∈ m := by
  induction m with
  | nil => simp [alookup] at h
  | cons e rest ih =>
    obtain ⟨a, b⟩ := e
    by_cases hk : a = k
    · simp only [alookup, if_pos hk] at h
      subst hk
      have hv := Option.some.inj h
      subst hv
      exact List.mem_cons_self _ _
    · simp only [alookup, if_neg hk] at h
      exact List.mem_cons_of_mem _ (ih h)

theorem patternFilled_restore (board : BoardState) (c : CellId) (p : Pattern)
    (h : patternFilled
      (aset (aset board c CellState.filled) c CellState.empty) p = true) :
    patternFilled board p = true := by
  rw [patternFilled_iff] at h ⊢
  intro x hx
  have h2 := h x hx
  rw [alookup_aset] at h2
  by_cases hxc : x = c
  · rw [if_pos hxc] at h2
    exact absurd h2 (by simp)
  · rw [if_neg hxc] at h2
    rw [alookup_aset, if_neg hxc] at h2
    exact h2

theorem spawnLoop_no_new_clears (forbidden : List String)
    (cells : List Cell) (board : BoardState)
    (h : (findClears board).clearedPatterns = []) :
    (findClears (spawnLoop forbidden cells board).1).clearedPatterns = [] := by
  induction cells generalizing board with
  | nil => exact h
  | cons cell rest ih =>
    show (findClears
      (if inForbiddenFlower forbidden cell.id then
        spawnLoop forbidden rest board
      else if alookup board cell.id = some CellState.filled then
        (board, some cell.id)
      else
        (let b2 := aset board cell.id CellState.filled
        if (findClears b2).clearedPatterns.length = 0 then (b2, some cell.id)
        else spawnLoop forbidden rest
          (aset b2 cell.id CellState.empty))).1).clearedPatterns = []
    by_cases hforb : inForbiddenFlower forbidden cell.id
    · rw [if_pos hforb]
      exact ih board h
    · rw [if_neg hforb]
      by_cases hfil : alookup board cell.id = some CellState.filled
      · rw [if_pos hfil]
        exact h
      · rw [if_neg hfil]
        by_cases hcl : (findClears (aset board cell.id
            CellState.filled)).clearedPatterns.length = 0
        · simp only [hcl, if_true, if_pos hcl]
          exact List.length_eq_zero.mp hcl
        · simp only [hcl, if_neg hcl]
          apply ih
          rw [findClears_eq_nil_iff] at h ⊢
          intro p hp hsc
          cases hbp : patternFilled
            (aset (aset board cell.id CellState.filled) cell.id
              CellState.empty) p
          · rfl
          · exfalso
            have hb0 : patternFilled board p = true :=
              patternFilled_restore board cell.id p hbp
            rw [h p hp hsc] at hb0
            exact Bool.noConfusion hb0

theorem spawnGoldenCell_no_new_clears (board : BoardState)
    (forbidden : List String) (shuffled : List Cell)
    (h : (findClears board).clearedPatterns = []) :
    (findClears (spawnGoldenCell board forbidden shuffled).1).clearedPatterns
      = [] := by
  unfold spawnGoldenCell
  rcases hsp : spawnLoop forbidden shuffled board with ⟨b2, oid⟩
  have h2 := spawnLoop_no_new_clears forbidden shuffled board h
  rw [hsp] at h2
  rcases oid with _ | id
  · exact h2
  · exact h2

theorem no_clears_if_branch (b : Bool) (board : BoardState)
    (forb : List String) (cells : List Cell)
    (h : (findClears board).clearedPatterns = []) :
    (findClears (if b then (spawnGoldenCell board forb cells).1
      else board)).clearedPatterns = [] := by
  by_cases hb : b = true
  · rw [if_pos hb]
    exact spawnGoldenCell_no_new_clears board forb cells h
  · rw [if_neg hb]
    exact h

theorem core_board_no_clears (board0 : BoardState) (hits : HitsMap)
    (total rem : Int) (compl : Bool) (targets : List CellId)
    (hfilled : ∀ e ∈ hits, 0 < e.2 →
      alookup board0 e.1 = some CellState.filled)
    (hnotfull : ∀ p ∈ BOARD_DEFINITION.patterns, isScoringId p.id = true →
      ∃ c ∈ p.cellIds, (alookup hits c).getD 0 ≤ 0)
    (hhnd : (hits.map Prod.fst).Nodup) :
    (findClears
      (refillDaily
        (clearCells (fillCells board0 targets)
          (findClears (fillCells board0 targets)).clearedCellIds)
        (dailyResolve (findClears (fillCells board0 targets)).clearedPatterns
          hits total rem compl).1)).clearedPatterns = [] := by
  set board1 := fillCells board0 targets with hb1
  set scanP := (findClears board1).clearedPatterns with hspdef
  set scanC := (findClears board1).clearedCellIds with hscdef
  set hits2 := (dailyResolve scanP hits total rem compl).1 with hh2
  set board2 := clearCells board1 scanC with hb2
  set board3 := refillDaily board2 hits2 with hb3
  rw [findClears_eq_nil_iff]
  intro p hp hscp
  have hnd2 : (hits2.map Prod.fst).Nodup := by
    rw [hh2]
    exact dailyResolve_keys_nodup _ _ _ _ _ hhnd
  have hle : ∀ x : CellId,
      (alookup hits2 x).getD 0 ≤ (alookup hits x).getD 0 := by
    intro x
    rw [hh2]
    exact dailyResolve_getD_le _ _ _ _ _ x
  by_cases hmem : p ∈ scanP
  · obtain ⟨c, hc, hcle⟩ := hnotfull p hp hscp
    have hcc : c ∈ scanC := by
      rw [hscdef]
      rw [hspdef] at hmem
      exact (mem_findClears_cells board1 c).mpr ⟨p, hmem, hc⟩
    have hnp : ¬ (hits2.any
        (fun e => decide (e.1 = c) && decide (e.2 > 0)) = true) := by
      intro hany
      have h1 := any_imp_alookup_pos hits2 c hnd2 hany
      have h2 := hle c
      omega
    have hb3c : alookup board3 c = some CellState.empty := by
      rw [hb3, alookup_refillDaily, if_neg hnp, hb2, alookup_clearCells,
        if_pos hcc]
    cases hbp : patternFilled board3 p
    · rfl
    · rw [patternFilled_iff] at hbp
      have hcon := hbp c hc
      rw [hb3c] at hcon
      exact absurd hcon (by simp)
  · have hnf : ¬ patternFilled board1 p = true := by
      intro hfl
      apply hmem
      rw [hspdef]
      exact (mem_findClears_patterns board1 p).mpr ⟨hp, hscp, hfl⟩
    rw [patternFilled_iff] at hnf
    push_neg at hnf
    obtain ⟨c, hc, hne⟩ := hnf
    have hnp : ¬ (hits2.any
        (fun e => decide (e.1 = c) && decide (e.2 > 0)) = true) := by
      intro hany
      have h1 := any_imp_alookup_pos hits2 c hnd2 hany
      have h2 := hle c
      have hpos : 0 < (alookup hits c).getD 0 := by omega
      rcases hv : alookup hits c with _ | v
      · rw [hv] at hpos
        simp at hpos
      · have hmem2 : (c, v) ∈ hits := mem_of_alookup_eq_some hits c v hv
        rw [hv] at hpos
        simp only [Option.getD_some] at hpos
        have hfil := hfilled (c, v) hmem2 hpos
        apply hne
        rw [hb1, alookup_fillCells]
        by_cases ht : c ∈ targets
        · rw [if_pos ht]
        · rw [if_neg ht]
          exact hfil
    have hb3c : alookup board3 c ≠ some CellState.filled := by
      rw [hb3, alookup_refillDaily, if_neg hnp, hb2, alookup_clearCells]
      by_cases hcc2 : c ∈ scanC
      · rw [if_pos hcc2]
        simp
      · rw [if_neg hcc2]
        exact hne
    cases hbp : patternFilled board3 p
    · rfl
    · rw [patternFilled_iff] at hbp
      exact absurd (hbp c hc) hb3c

set_option maxRecDepth 1000000 in
/-- C4 amended: for every successful `applyPlacement` from a state whose
positive-hit daily cells are all filled, whose scoring patterns each
contain a cell without remaining hits, and whose hit-map keys are
distinct, running `findClears` on the board in the returned
`PlacementResult` finds zero completed scoring patterns, also after the
daily refill and after an endless-mode golden respawn.  (Without these
reachability conditions the daily refill can re-complete a cleared
pattern, see the counterexample.) -/
theorem C4_no_residual_clears (shuffledCells : List Cell)
    (current : GameState) (piece : ActivePiece) (originCellId : CellId)
    (res : PlacementResult)
    (h : applyPlacement shuffledCells current piece originCellId = some res)
    (hfilled : ∀ e ∈ current.dailyHits, 0 < e.2 →
      alookup current.board e.1 = some CellState.filled)
    (hnotfull : ∀ p ∈ BOARD_DEFINITION.patterns, isScoringId p.id = true →
      ∃ c ∈ p.cellIds, (alookup current.dailyHits c).getD 0 ≤ 0)
    (hhnd : (current.dailyHits.map Prod.fst).Nodup) :
    (findClears res.board).clearedPatterns = [] := by
  rcases hcp : canPlacePiece current.board piece.shape originCellId with
    _ | targets
  · have hnone : applyPlacementCore current piece originCellId = none := by
      unfold applyPlacementCore
      rw [hcp]
    unfold applyPlacement at h
    rw [hnone] at h
    exact absurd h (by simp)
  · by_cases hz :
      (findClears (fillCells current.board targets)).clearedPatterns.length
        = 0
    · have hcore := applyPlacementCore_noclears_eq current piece originCellId
        targets hcp hz
      have happ := applyPlacement_noclears_eq shuffledCells current piece
        originCellId _ hcore rfl
      rw [happ] at h
      have hre := Option.some.inj h
      rw [← hre]
      show (findClears (fillCells current.board targets)).clearedPatterns = []
      exact List.length_eq_zero.mp hz
    · have hcore := applyPlacementCore_clears_eq current piece originCellId
        targets hcp hz
      have happ := applyPlacement_clears_eq shuffledCells current piece
        originCellId _ hcore hz
      rw [happ] at h
      have hre := Option.some.inj h
      rw [← hre]
      have hmain := core_board_no_clears current.board current.dailyHits
        current.dailyTotalHits current.dailyRemainingHits
        current.dailyCompleted targets hfilled hnotfull hhnd
      exact no_clears_if_branch _ _ _ _ hmain

set_option maxRecDepth 2000000 in
/-- C4 counterexample: on `refilledFlowerState` the move clears the
central flower, but the daily refill re-fills all seven of its numbered
cells, so `findClears` on the returned board finds one completed
pattern, not zero. -/
theorem C4_counterexample :
    (applyPlacement [] refilledFlowerState singleCellPiece ⟨3, -1⟩).map
        (fun r => (findClears r.board).clearedPatterns.length) = some 1 ∧
      (1 : Nat) ≠ 0 := by
  exact ⟨by decide, by decide⟩

set_option maxRecDepth 2000000 in
/-- Witness for C4: the numbered-petal state satisfies the amended
hypotheses and its flower-completing move leaves no residual clears. -/
theorem C4_witness :
    (applyPlacement BOARD_DEFINITION.cells dailyHitState singleCellPiece
        ⟨0, 0⟩).map
      (fun r => (findClears r.board).clearedPatterns.length) = some 0 := by
  have hcore : applyPlacementCore dailyHitState singleCellPiece ⟨0, 0⟩ =
      some dailyHitCore := by decide
  have hn : ¬ dailyHitCore.clearedPatterns.length = 0 := by decide
  have happ := applyPlacement_clears_eq BOARD_DEFINITION.cells dailyHitState
    singleCellPiece ⟨0, 0⟩ dailyHitCore hcore hn
  have h := C4_no_residual_clears BOARD_DEFINITION.cells dailyHitState
    singleCellPiece ⟨0, 0⟩ _ happ (by decide) (by decide) (by decide)
  rw [happ]
  simp only [Option.map_some']
  refine congrArg some ?_
  rw [h]
  rfl

/-! ### Daily generation: the central flower -/

set_option maxRecDepth 1000000 in
theorem flower_patterns_eq :
    FLOWER_PATTERNS =
      [flower0, flower1, flower2, flower3, flower4, flower5, flower6] := by
  decide

set_option maxRecDepth 1000000 in
theorem flowerDistSq_flower0 : flowerDistSq flower0 = some 0 := by
  have h : flowerCoordSum flower0 = (0, 0, 7) := by decide
  unfold flowerDistSq
  rw [h]
  norm_num

set_option maxRecDepth 1000000 in
theorem flowerDistSq_flower1 : flowerDistSq flower1 = some 10 := by
  have h : flowerCoordSum flower1 = (-21, 7, 7) := by decide
  unfold flowerDistSq
  rw [h]
  norm_num

set_option maxRecDepth 1000000 in
theorem flowerDistSq_flower2 : flowerDistSq flower2 = some 13 := by
  have h : flowerCoordSum flower2 = (-14, 21, 7) := by decide
  unfold flowerDistSq
  rw [h]
  norm_num

set_option maxRecDepth 1000000 in
theorem flowerDistSq_flower3 : flowerDistSq flower3 = some 5 := by
  have h : flowerCoordSum flower3 = (-7, -14, 7) := by decide
  unfold flowerDistSq
  rw [h]
  norm_num

set_option maxRecDepth 1000000 in
theorem flowerDistSq_flower4 : flowerDistSq flower4 = some 5 := by
  have h : flowerCoordSum flower4 = (7, 14, 7) := by decide
  unfold flowerDistSq
  rw [h]
  norm_num

set_option maxRecDepth 1000000 in
theorem flowerDistSq_flower5 : flowerDistSq flower5 = some 13 := by
  have h : flowerCoordSum flower5 = (14, -21, 7) := by decide
  unfold flowerDistSq
  rw [h]
  norm_num

set_option maxRecDepth 1000000 in
theorem flowerDistSq_flower6 : flowerDistSq flower6 = some 10 := by
  have h : flowerCoordSum flower6 = (21, -7, 7) := by decide
  unfold flowerDistSq
  rw [h]
  norm_num

theorem centerFlower_eq : centerFlowerOf FLOWER_PATTERNS = some flower0 := by
  rw [flower_patterns_eq]
  have h0 : centerFold none flower0 = some (flower0, 0) := by
    unfold centerFold
    rw [flowerDistSq_flower0]
  have h1 : centerFold (some (flower0, 0)) flower1 = some (flower0, 0) := by
    unfold centerFold
    rw [flowerDistSq_flower1]
    show (if (10 : Rat) < 0 then some (flower1, 10) else some (flower0, 0)) =
      some (flower0, 0)
    rw [if_neg (by norm_num)]
  have h2 : centerFold (some (flower0, 0)) flower2 = some (flower0, 0) := by
    unfold centerFold
    rw [flowerDistSq_flower2]
    show (if (13 : Rat) < 0 then some (flower2, 13) else some (flower0, 0)) =
      some (flower0, 0)
    rw [if_neg (by norm_num)]
  have h3 : centerFold (some (flower0, 0)) flower3 = some (flower0, 0) := by
    unfold centerFold
    rw [flowerDistSq_flower3]
    show (if (5 : Rat) < 0 then some (flower3, 5) else some (flower0, 0)) =
      some (flower0, 0)
    rw [if_neg (by norm_num)]
  have h4 : centerFold (some (flower0, 0)) flower4 = some (flower0, 0) := by
    unfold centerFold
    rw [flowerDistSq_flower4]
    show (if (5 : Rat) < 0 then some (flower4, 5) else some (flower0, 0)) =
      some (flower0, 0)
    rw [if_neg (by norm_num)]
  have h5 : centerFold (some (flower0, 0)) flower5 = some (flower0, 0) := by
    unfold centerFold
    rw [flowerDistSq_flower5]
    show (if (13 : Rat) < 0 then some (flower5, 13) else some (flower0, 0)) =
      some (flower0, 0)
    rw [if_neg (by norm_num)]
  have h6 : centerFold (some (flower0, 0)) flower6 = some (flower0, 0) := by
    unfold centerFold
    rw [flowerDistSq_flower6]
    show (if (10 : Rat) < 0 then some (flower6, 10) else some (flower0, 0)) =
      some (flower0, 0)
    rw [if_neg (by norm_num)]
  unfold centerFlowerOf
  rw [List.foldl_cons, h0, List.foldl_cons, h1, List.foldl_cons, h2,
    List.foldl_cons, h3, List.foldl_cons, h4, List.foldl_cons, h5,
    List.foldl_cons, h6, List.foldl_nil]
  rfl

/-! ### Daily generation: one numbered-cell draw -/

theorem floor_rng_bounds (s k : Nat) (hk : 0 < k) (hs : s < 4294967295) :
    0 ≤ ⌊(s : Rat) / 4294967295 * ((k : Nat) : Rat)⌋ ∧
      ⌊(s : Rat) / 4294967295 * ((k : Nat) : Rat)⌋ < (k : Int) := by
  have h0 : (0 : Rat) ≤ (s : Rat) / 4294967295 :=
    div_nonneg (Nat.cast_nonneg _) (by norm_num)
  have h1 : (s : Rat) / 4294967295 < 1 := by
    rw [div_lt_one (by norm_num)]
    exact_mod_cast hs
  have hkr : (0 : Rat) < (k : Rat) := by exact_mod_cast hk
  refine ⟨Int.floor_nonneg.mpr (mul_nonneg h0 (le_of_lt hkr)), ?_⟩
  rw [Int.floor_lt]
  have h2 : (s : Rat) / 4294967295 * (k : Rat) < 1 * (k : Rat) :=
    mul_lt_mul_of_pos_right h1 hkr
  rw [one_mul] at h2
  exact_mod_cast h2

theorem lcgNext_lt (s : Nat) : lcgNext s < 4294967296 :=
  Nat.mod_lt _ (by norm_num)

theorem aset_fresh {β : Type} (m : List (CellId × β)) (k : CellId) (v : β)
    (h : alookup m k = none) : aset m k v = m ++ [(k, v)] := by
  induction m with
  | nil => rfl
  | cons e rest ih =>
    simp only [alookup] at h
    by_cases he : e.1 = k
    · rw [if_pos he] at h
      exact absurd h (by simp)
    · rw [if_neg he] at h
      simp only [aset, if_neg he, List.cons_append]
      rw [ih h]

theorem dailyGenStep_eval (cf : Option Pattern) (hits : HitsMap) (tot : Int)
    (s : Nat) (f : Pattern) (idx : Nat) (value : Int) (c : CellId)
    (hcf : ¬ cf = some f)
    (hlen : f.cellIds.length > 0)
    (hidx : ⌊((lcgNext s : Rat) / 4294967295) * (f.cellIds.length : Rat)⌋ =
      (idx : Int))
    (hval : (2 : Int) +
      ⌊((lcgNext (lcgNext s) : Rat) / 4294967295) * 3⌋ = value)
    (hget : f.cellIds[idx]? = some c) :
    dailyGenStep cf ⟨hits, tot, s⟩ f =
      ⟨aset hits c ((alookup hits c).getD 0 + value), tot + value,
        lcgNext (lcgNext s)⟩ := by
  unfold dailyGenStep
  rw [if_neg hcf, if_pos hlen]
  show (match f.cellIds[(⌊((lcgNext s : Rat) / 4294967295) *
      (f.cellIds.length : Rat)⌋).toNat]? with
    | some cellId =>
      (⟨aset hits cellId ((alookup hits cellId).getD 0 +
          (2 + ⌊((lcgNext (lcgNext s) : Rat) / 4294967295) * 3⌋)),
        tot + (2 + ⌊((lcgNext (lcgNext s) : Rat) / 4294967295) * 3⌋),
        lcgNext (lcgNext s)⟩ : DailyGenState)
    | none =>
      ⟨hits, tot + (2 + ⌊((lcgNext (lcgNext s) : Rat) / 4294967295) * 3⌋),
        lcgNext (lcgNext s)⟩) =
    ⟨aset hits c ((alookup hits c).getD 0 + value), tot + value,
      lcgNext (lcgNext s)⟩
  rw [hidx, hval, Int.toNat_natCast, hget]

theorem dailyGenStep_draw (cf : Option Pattern) (hits : HitsMap) (tot : Int)
    (s : Nat) (f : Pattern)
    (hcf : ¬ cf = some f) (hlen : f.cellIds.length = 7)
    (h1 : lcgNext s ≠ 4294967295) (h2 : lcgNext (lcgNext s) ≠ 4294967295) :
    ∃ c ∈ f.cellIds, ∃ v : Int, (v = 2 ∨ v = 3 ∨ v = 4) ∧
      dailyGenStep cf ⟨hits, tot, s⟩ f =
        ⟨aset hits c ((alookup hits c).getD 0 + v), tot + v,
          lcgNext (lcgNext s)⟩ := by
  have hs1lt : lcgNext s < 4294967295 := by
    have := lcgNext_lt s
    omega
  have hs2lt : lcgNext (lcgNext s) < 4294967295 := by
    have := lcgNext_lt (lcgNext s)
    omega
  have hb1 := floor_rng_bounds (lcgNext s) f.cellIds.length
    (by omega) hs1lt
  have hb2 : 0 ≤ ⌊((lcgNext (lcgNext s) : Rat) / 4294967295) * (3 : Rat)⌋ ∧
      ⌊((lcgNext (lcgNext s) : Rat) / 4294967295) * (3 : Rat)⌋ < (3 : Int) := by
    have h3 := floor_rng_bounds (lcgNext (lcgNext s)) 3 (by norm_num) hs2lt
    simpa using h3
  have hlt : (⌊((lcgNext s : Rat) / 4294967295) *
      (f.cellIds.length : Rat)⌋).toNat < f.cellIds.length := by
    omega
  have hget := List.getElem?_eq_getElem hlt
  refine ⟨f.cellIds[(⌊((lcgNext s : Rat) / 4294967295) *
      (f.cellIds.length : Rat)⌋).toNat], List.getElem?_mem hget,
    2 + ⌊((lcgNext (lcgNext s) : Rat) / 4294967295) * (3 : Rat)⌋,
    by omega, ?_⟩
  exact dailyGenStep_eval cf hits tot s f _ _ _ hcf (by omega)
    (Int.toNat_of_nonneg hb1.1).symm rfl hget
